import Mathlib

/-!
Verification development for Neuraxle's AutoML metadata core:
the `ScopedLocation` addressing type, the `BaseDataclass` metadata tree
(`vanilla.py`), the in-memory `VanillaHyperparamsRepository` (`vanilla.py`),
the on-disk `HyperparamsOnDiskRepository` (`json_repo.py`) and the parts of
the controller loop (`auto_ml.py`) relevant to best-trial refitting.

The embedding is a shallow one: Python dataclasses become Lean inductives,
in-place mutation becomes explicit state passing (functions return the new
value of the mutated object alongside a possible raised error), Python
exceptions become an explicit error type.  Wall-clock fields of the trial
dataclasses (`created_time`, `start_time`, `end_time`) are outside the
embedding: no claim mentions them and no modelled code path reads them.
Python's recursion (bounded in practice by the interpreter's recursion
limit) is embedded with an explicit fuel parameter; exhausting the fuel is
an error, mirroring Python's `RecursionError` on pathologically deep trees.
-/

namespace Neuraxle

/-- A scoped-location attribute: Python's `Union[str, int]`
(`ScopedLocationAttr` in `vanilla.py`). -/
inductive SAttr where
  | str (s : String)
  | num (n : Int)
  deriving DecidableEq, Repr

/-- Python exceptions raised by the embedded code.  `jsonError` is the
`ValueError` raised by `HyperparamsOnDiskRepository._load_json_file`, which
carries the offending file path and the directory listing surrounding it. -/
inductive PErr where
  | keyError
  | typeError
  | valueError
  | indexError
  | attributeError
  | nameError (missing : String)
  | jsonError (path : List String) (listing : List String)
  | depthExceeded
  deriving DecidableEq, Repr

/-- `TrialStatus` from `neuraxle.base`. -/
inductive TStatus where
  | planned
  | running
  | success
  | failed
  | aborted
  deriving DecidableEq, Repr

/-- The value held in the `hyperparams` field of a trial dataclass.  Python
is untyped here: `ScopedLocation.new_dataclass_from_id` can place a raw
scope attribute into this field (it is the first positional field of
`TrialDataclass` by dataclass field-collection order), hence the `attr`
constructor alongside proper hyperparameter samples. -/
inductive HPVal where
  | samples (ps : List (String × Rat))
  | attr (a : SAttr)
  deriving DecidableEq, Repr

/-- The non-id, non-sublocation fields contributed by
`BaseTrialDataclassMixin` (minus the wall-clock timestamps, see the file
header). -/
structure TrialFields where
  hyperparams : HPVal
  status : TStatus := .planned
  log : String := ""
  deriving DecidableEq, Repr

/-- The metadata tree (`BaseDataclass` hierarchy of `vanilla.py`).  Each
node carries its own id field (optional: Python allows `None` ids) and its
sublocation collection.  Ordered-dict sublocations are association lists
whose keys are optional attributes (a Python dict key can be any value
`store` puts there); list sublocations are lists; `MetricResultsDataclass`'s
sublocation is its `validation_values` list, whose entries can be `None`
after a `shallow()` copy. -/
inductive DC where
  | root (projects : List (Option SAttr × Option DC))
  | project (projectName : Option SAttr) (clients : List (Option SAttr × Option DC))
  | client (clientName : Option SAttr) (rounds : List (Option DC))
      (mainMetricName : Option String)
  | rnd (roundNumber : Option SAttr) (trials : List (Option DC))
  | trial (trialNumber : Option SAttr) (fields : TrialFields)
      (validationSplits : List (Option DC))
  | tsplit (splitNumber : Option SAttr) (fields : TrialFields)
      (metricResults : List (Option SAttr × Option DC))
  | metric (metricName : Option SAttr) (validationValues : List (Option Rat))
      (trainValues : List Rat) (higherScoreIsBetter : Bool)

/-- The seven dataclass kinds, in the fixed type order of
`dataclass_2_subloc_attr`. -/
inductive Kind where
  | root
  | project
  | client
  | rnd
  | trial
  | tsplit
  | metric
  deriving DecidableEq, Repr

/-- A sublocation collection, detached from its node
(`BaseDataclass.get_sublocation`). -/
inductive Subloc where
  | dict (entries : List (Option SAttr × Option DC))
  | list (entries : List (Option DC))
  | values (vs : List (Option Rat))

namespace DC

/-- The kind of a node. -/
def kind : DC → Kind
  | .root _ => .root
  | .project _ _ => .project
  | .client _ _ _ => .client
  | .rnd _ _ => .rnd
  | .trial _ _ _ => .trial
  | .tsplit _ _ _ => .tsplit
  | .metric _ _ _ _ => .metric

/-- `BaseDataclass.get_id`: `RootDataclass.get_id` returns `None`. -/
def getId : DC → Option SAttr
  | .root _ => none
  | .project n _ => n
  | .client n _ _ => n
  | .rnd n _ => n
  | .trial n _ _ => n
  | .tsplit n _ _ => n
  | .metric n _ _ _ => n

/-- `BaseDataclass.get_sublocation`. -/
def getSubloc : DC → Subloc
  | .root ps => .dict ps
  | .project _ cs => .dict cs
  | .client _ rs _ => .list rs
  | .rnd _ ts => .list ts
  | .trial _ _ ss => .list ss
  | .tsplit _ _ ms => .dict ms
  | .metric _ vv _ _ => .values vv

end DC

/-- `dataclass_2_subdataclass`: the expected child kind of each node kind
(`Kind.metric` maps to `none`). -/
def subKind : Kind → Option Kind
  | .root => some .project
  | .project => some .client
  | .client => some .rnd
  | .rnd => some .trial
  | .trial => some .tsplit
  | .tsplit => some .metric
  | .metric => none

/-- The index of a kind in `dataclass_2_id_attr` (`project = 0` …
`metric = 5`); `root` has no id attribute and is mapped to `none`. -/
def idIdx : Kind → Option Nat
  | .root => none
  | .project => some 0
  | .client => some 1
  | .rnd => some 2
  | .trial => some 3
  | .tsplit => some 4
  | .metric => some 5

/-- The index of a kind in `dataclass_2_subloc_attr` (`root = 0` …
`metric = 6`). -/
def sublocIdx : Kind → Nat
  | .root => 0
  | .project => 1
  | .client => 2
  | .rnd => 3
  | .trial => 4
  | .tsplit => 5
  | .metric => 6

/-- Whether a kind's sublocation is an ordered dict
(`DataclassHasOrderedDictMixin`). -/
def isDictKind : Kind → Bool
  | .root | .project | .tsplit => true
  | _ => false

/-- Whether a kind's sublocation is a list (`DataclassHasListMixin`);
note that `MetricResultsDataclass` is also a `DataclassHasListMixin`, its
list being `validation_values`. -/
def isListKind : Kind → Bool
  | .client | .rnd | .trial | .metric => true
  | _ => false

namespace Subloc

/-- `get_sublocation_keys` of the detached collection: dict keys for the
ordered-dict mixin, `range(len(...))` for the list mixin (also used for
`MetricResultsDataclass`, whose keys are the indices of its values). -/
def keys : Subloc → List (Option SAttr)
  | .dict es => es.map Prod.fst
  | .list es => (List.range es.length).map (fun (i : Nat) => some (.num (i : Int)))
  | .values vs => (List.range vs.length).map (fun (i : Nat) => some (.num (i : Int)))

/-- The child nodes present in the collection (placeholders and metric
values excluded). -/
def childrenPresent : Subloc → List DC
  | .dict es => es.filterMap Prod.snd
  | .list es => es.filterMap id
  | .values _ => []

end Subloc

namespace DC

/-- `get_sublocation_keys` of a node. -/
def sublocKeys (dc : DC) : List (Option SAttr) := dc.getSubloc.keys

/-- Replace the sublocation field of a node with a detached collection of
the same shape.  Returns `none` when the shapes differ: in Python the
`setattr` would succeed and the subsequent `_invariant()` call would raise
`ValueError` before the malformed node escapes `set_sublocation`. -/
def withSubloc : DC → Subloc → Option DC
  | .root _, .dict es => some (.root es)
  | .project n _, .dict es => some (.project n es)
  | .client n _ m, .list es => some (.client n es m)
  | .rnd n _, .list es => some (.rnd n es)
  | .trial n f _, .list es => some (.trial n f es)
  | .tsplit n f _, .dict es => some (.tsplit n f es)
  | .metric n _ tv h, .values vs => some (.metric n vs tv h)
  | _, _ => none

end DC

/-- Is an optional attribute a string (`isinstance(s, str)`)? -/
def isStrAttr : Option SAttr → Bool
  | some (.str _) => true
  | _ => false

/-- `DataclassHasOrderedDictMixin._invariant` on a node: all sublocation
keys are strings, and all non-`None` sublocation values are instances of
the expected child dataclass type.  For the list mixin the only check is
that the sublocation is a `List`, which the typed embedding guarantees, so
list-kind (and metric) nodes never fail their invariant. -/
def dcInvariantErr (dc : DC) : Option PErr :=
  match dc.getSubloc with
  | .dict es =>
    if es.all (fun e => isStrAttr e.1) &&
       es.all (fun e => match e.2 with
         | none => true
         | some c => decide (some c.kind = subKind dc.kind)) then
      none
    else
      some .valueError
  | .list _ => none
  | .values _ => none

/-- Insert-or-replace in an ordered dict, Python `d[k] = v` semantics:
replace in place when the key exists, append otherwise. -/
def dictPut : List (Option SAttr × Option DC) → Option SAttr → Option DC →
    List (Option SAttr × Option DC)
  | [], k, v => [(k, v)]
  | (k', v') :: rest, k, v =>
    if k' = k then (k, v) :: rest else (k', v') :: dictPut rest k v

/-- `store(dc)` on a node (`DataclassHasOrderedDictMixin.store` /
`DataclassHasListMixin.store`).  Returns the possibly raised error together
with the state of the node after the call: the ordered-dict mixin mutates
the dict first and re-validates afterwards, so a failed store leaves the
new entry inserted; the list mixin raises (`TypeError` on a non-int id,
`ValueError` on an id above the next index, `IndexError` on a negative id
below `-len`) before mutating, and otherwise appends at `len` or overwrites
in place, with Python's negative-index aliasing for negative ids. -/
def storeDC (parent child : DC) : Option PErr × DC :=
  match parent.getSubloc with
  | .dict es =>
    let es' := dictPut es child.getId (some child)
    let parent' := (parent.withSubloc (.dict es')).getD parent
    (dcInvariantErr parent', parent')
  | .list es =>
    match child.getId with
    | some (.num i) =>
      if i = es.length then
        (none, (parent.withSubloc (.list (es ++ [some child]))).getD parent)
      else if i < (es.length : Int) then
        if 0 ≤ i then
          (none, (parent.withSubloc (.list (es.set i.toNat (some child)))).getD parent)
        else if 0 ≤ (es.length : Int) + i then
          (none, (parent.withSubloc
            (.list (es.set ((es.length : Int) + i).toNat (some child)))).getD parent)
        else
          (some .indexError, parent)
      else
        (some .valueError, parent)
    | _ => (some .typeError, parent)
  | .values _ => (some .attributeError, parent)

/-- `shallow()`: replace every child slot with an unset placeholder,
preserving keys (dict) or indices (list / metric values). -/
def DC.shallow (dc : DC) : DC :=
  match dc.getSubloc with
  | .dict es => (dc.withSubloc (.dict (es.map (fun e => (e.1, none))))).getD dc
  | .list es => (dc.withSubloc (.list (es.map (fun _ => none)))).getD dc
  | .values vs => (dc.withSubloc (.values (vs.map (fun _ => none)))).getD dc

/-- `ScopedLocation`: six optional coordinates. -/
structure ScopedLocation where
  projectName : Option SAttr := none
  clientName : Option SAttr := none
  roundNumber : Option SAttr := none
  trialNumber : Option SAttr := none
  splitNumber : Option SAttr := none
  metricName : Option SAttr := none
  deriving DecidableEq, Repr

namespace ScopedLocation

/-- The six coordinate fields in `dataclass_2_id_attr` order. -/
def fieldsList (s : ScopedLocation) : List (Option SAttr) :=
  [s.projectName, s.clientName, s.roundNumber, s.trialNumber, s.splitNumber,
   s.metricName]

/-- Leading `some` values of a list of optionals (the loop with `break` in
`ScopedLocation.as_list`). -/
def takeSome : List (Option SAttr) → List SAttr
  | some a :: rest => a :: takeSome rest
  | _ => []

/-- `ScopedLocation.as_list`: the coordinate values up to the first unset
one. -/
def asList (s : ScopedLocation) : List SAttr := takeSome s.fieldsList

/-- Positional construction `ScopedLocation(*lst)` (lists of more than six
attributes do not occur in any modelled flow; Python would raise
`TypeError` there). -/
def ofList (l : List SAttr) : ScopedLocation where
  projectName := l[0]?
  clientName := l[1]?
  roundNumber := l[2]?
  trialNumber := l[3]?
  splitNumber := l[4]?
  metricName := l[5]?

/-- `ScopedLocation.with_id`. -/
def withId (s : ScopedLocation) (a : SAttr) : ScopedLocation :=
  ofList (s.asList ++ [a])

/-- Read the coordinate belonging to a dataclass kind
(`ScopedLocation.__getitem__` with a dataclass type key; the
`RootDataclass` key yields `None`). -/
def get (s : ScopedLocation) : Kind → Option SAttr
  | .root => none
  | .project => s.projectName
  | .client => s.clientName
  | .rnd => s.roundNumber
  | .trial => s.trialNumber
  | .tsplit => s.splitNumber
  | .metric => s.metricName

/-- Slicing `scope[:K]` (`__getitem__` with a slice): keep the `as_list`
prefix up to and including `K`'s coordinate; the `RootDataclass` stop
yields the empty location. -/
def sliceAt (s : ScopedLocation) (k : Kind) : ScopedLocation :=
  match idIdx k with
  | none => {}
  | some d => ofList (s.asList.take (d + 1))

/-- `ScopedLocation.pop`: remove and return the last non-`None` coordinate,
scanning the fields in reverse order. -/
def pop (s : ScopedLocation) : Option SAttr × ScopedLocation :=
  match s.metricName with
  | some a => (some a, { s with metricName := none })
  | none =>
  match s.splitNumber with
  | some a => (some a, { s with splitNumber := none })
  | none =>
  match s.trialNumber with
  | some a => (some a, { s with trialNumber := none })
  | none =>
  match s.roundNumber with
  | some a => (some a, { s with roundNumber := none })
  | none =>
  match s.clientName with
  | some a => (some a, { s with clientName := none })
  | none =>
  match s.projectName with
  | some a => (some a, { s with projectName := none })
  | none => (none, s)

/-- `ScopedLocation.__setitem__` for a dataclass kind: requires the number
of already-set coordinates to equal the kind's position, else raises
`ValueError`. -/
def setItem (s : ScopedLocation) (k : Kind) (v : Option SAttr) :
    Except PErr ScopedLocation :=
  match idIdx k with
  | none => .error .valueError
  | some d =>
    if s.asList.length = d then
      .ok (match k with
        | .root => s
        | .project => { s with projectName := v }
        | .client => { s with clientName := v }
        | .rnd => { s with roundNumber := v }
        | .trial => { s with trialNumber := v }
        | .tsplit => { s with splitNumber := v }
        | .metric => { s with metricName := v })
    else
      .error .valueError

/-- `ScopedLocation.with_dc`: append the node's own id as the next
coordinate (empty location for a `RootDataclass`); raises when the node's
coordinate is not the next one to be set. -/
def withDC (s : ScopedLocation) (dc : DC) : Except PErr ScopedLocation :=
  match dc.kind with
  | .root => .ok {}
  | k => s.setItem k dc.getId

/-- The dataclass kind at an `as_list` length (index `len - 1` of
`dataclass_2_id_attr`, with Python's negative indexing for length `0`). -/
def kindAtLen : Nat → Kind
  | 0 => .metric
  | 1 => .project
  | 2 => .client
  | 3 => .rnd
  | 4 => .trial
  | 5 => .tsplit
  | _ => .metric

/-- `ScopedLocation.new_dataclass_from_id`: build a node of the kind given
by the location's depth, passing the last coordinate as the single
positional constructor argument.  For `TrialDataclass` and
`TrialSplitDataclass` this first positional argument is the `hyperparams`
field (dataclass fields are collected in reverse method-resolution order,
so the `BaseTrialDataclassMixin` fields come first), leaving the trial or
split number at its default `0`.  `ProjectDataclass` is built with its
default clients dict, which already contains a default
`ClientDataclass`.  Returns `none` on an empty location (Python raises
`IndexError` there). -/
def newDataclassFromId (s : ScopedLocation) : Option DC :=
  match s.asList.getLast? with
  | none => none
  | some a =>
    some (match kindAtLen s.asList.length with
      | .project =>
        .project (some a)
          [(some (.str "default_client"), some (.client (some (.str "default_client")) [] none))]
      | .client => .client (some a) [] none
      | .rnd => .rnd (some a) []
      | .trial => .trial (some (.num 0)) { hyperparams := .attr a } []
      | .tsplit => .tsplit (some (.num 0)) { hyperparams := .attr a } []
      | _ => .metric (some a) [] [] true)

end ScopedLocation

/-- Association-list read with Python `dict` key-equality semantics. -/
def dictGet : List (Option SAttr × Option DC) → Option SAttr → Option (Option DC)
  | [], _ => none
  | (k', v) :: rest, k => if k' = k then some v else dictGet rest k

namespace Subloc

/-- `self.get_sublocation()[located_sub_attr]` on a detached collection:
dict key lookup, or list indexing for an in-range integer.  Returns `none`
when the access would fail (the callers only reach it after a key
membership check). -/
def fetch : Subloc → Option SAttr → Option (Option DC)
  | .dict es, k => dictGet es k
  | .list es, some (.num i) => if 0 ≤ i then es[i.toNat]? else none
  | _, _ => none

/-- Replace the value at an existing dict key or list index (used to write
back a child mutated further down a navigation path). -/
def put : Subloc → Option SAttr → Option DC → Subloc
  | .dict es, k, v => .dict (dictPut es k v)
  | .list es, some (.num i), v =>
    .list (if 0 ≤ i then es.set i.toNat v else es)
  | sl, _, _ => sl

end Subloc

/-- Recursion depth bound for the tree-walking functions (a well-typed
metadata tree has at most seven node levels). -/
def dcFuel : Nat := 8

/-- `BaseDataclass.__getitem__` with a `ScopedLocation`: starting from a
node, repeatedly read the coordinate belonging to the node's sub-dataclass
type; an unset coordinate (or a `MetricResultsDataclass`, which has no
sub-dataclass) returns the node itself; a coordinate absent from the
sublocation keys raises `KeyError`; an unset placeholder child raises
`TypeError` (Python subscripts `None`). -/
def dcGetF : Nat → DC → ScopedLocation → Except PErr DC
  | 0, _, _ => .error .depthExceeded
  | fuel + 1, dc, s =>
    match subKind dc.kind with
    | none => .ok dc
    | some sk =>
      match s.get sk with
      | none => .ok dc
      | some a =>
        if some a ∈ dc.sublocKeys then
          match dc.getSubloc.fetch (some a) with
          | some (some child) => dcGetF fuel child s
          | some none => .error .typeError
          | none => .error .keyError
        else
          .error .keyError

/-- Navigate like `dcGetF` and apply an effectful mutation at the located
node, rebuilding the tree on the way out (the functional rendering of
Python's in-place `self.root[scope].store(...)`).  The mutated child is
written back even when the mutation reports an error, matching Python's
mutate-then-raise behaviour. -/
def updateAtF : Nat → DC → ScopedLocation → (DC → Option PErr × DC) →
    Option PErr × DC
  | 0, dc, _, _ => (some .depthExceeded, dc)
  | fuel + 1, dc, s, f =>
    match subKind dc.kind with
    | none => f dc
    | some sk =>
      match s.get sk with
      | none => f dc
      | some a =>
        if some a ∈ dc.sublocKeys then
          match dc.getSubloc.fetch (some a) with
          | some (some child) =>
            let r := updateAtF fuel child s f
            (r.1, (dc.withSubloc (dc.getSubloc.put (some a) (some r.2))).getD dc)
          | some none => (some .typeError, dc)
          | none => (some .keyError, dc)
        else
          (some .keyError, dc)

/-- The key paths of a detached collection together with all deeper key
paths of its present children: the formal rendering of "the set of
descendant keys" below a node.  A metric node's keys are the indices of
its `validation_values`. -/
def sublocPathsF (descPaths : DC → List (List SAttr)) : Subloc → List (List SAttr)
  | .dict es => es.flatMap (fun e =>
      match e.1 with
      | some a => [a] :: (match e.2 with
          | some c => (descPaths c).map (fun p => a :: p)
          | none => [])
      | none => [])
  | .list es => es.enum.flatMap (fun e =>
      [SAttr.num e.1] :: (match e.2 with
        | some c => (descPaths c).map (fun p => SAttr.num e.1 :: p)
        | none => []))
  | .values vs => (List.range vs.length).map (fun i => [SAttr.num i])

/-- All descendant key paths of a node (fuelled recursion through the
sublocation collections). -/
def descPathsF : Nat → DC → List (List SAttr)
  | 0, _ => []
  | fuel + 1, dc => sublocPathsF (descPathsF fuel) dc.getSubloc

/-- The descendant key paths visible under a scope of a repository root:
empty when the scope does not resolve. -/
def keysUnder (root : DC) (s : ScopedLocation) : List (List SAttr) :=
  match dcGetF dcFuel root s with
  | .ok dc => descPathsF dcFuel dc
  | .error _ => []

/-- The ordered-dict entries of a node (empty for list-shaped nodes). -/
def dictEntriesOf (dc : DC) : List (Option SAttr × Option DC) :=
  match dc.getSubloc with
  | .dict es => es
  | _ => []

/-- Well-formedness of a subtree at a given kind: the node has that kind,
ordered-dict keys are strings, and every present child is well-formed at
the successor kind.  This is the shape the spec's data model prescribes
and the dataclass invariants enforce. -/
inductive WFAt : Kind → DC → Prop where
  | intro (k : Kind) (dc : DC)
      (hk : dc.kind = k)
      (hstr : ∀ e ∈ dictEntriesOf dc, isStrAttr e.1 = true)
      (hch : ∀ sk, subKind k = some sk →
        ∀ c ∈ dc.getSubloc.childrenPresent, WFAt sk c) :
      WFAt k dc

/-- A well-formed repository root. -/
def WF (dc : DC) : Prop := WFAt .root dc

/-- The kind of the node addressed by a scope of a given depth in a
well-formed tree. -/
def kindAt : Nat → Kind
  | 0 => .root
  | 1 => .project
  | 2 => .client
  | 3 => .rnd
  | 4 => .trial
  | 5 => .tsplit
  | _ => .metric

/-- A scope that addresses exactly one node of the given kind: no gaps
(the location is the positional image of its own `as_list`) and depth
exactly the kind's position.  For the root kind this is the empty
location. -/
def validForKind (s : ScopedLocation) (k : Kind) : Prop :=
  match idIdx k with
  | none => s = {}
  | some d => ScopedLocation.ofList s.asList = s ∧ s.asList.length = d + 1

/-- `VanillaHyperparamsRepository.load`: fetch the node at the scope,
shallow it unless `deep`, and synthesize a fresh node from the scope's
last coordinate when the address raises `KeyError`. -/
def vanillaLoad (root : DC) (s : ScopedLocation) (deep : Bool) : Except PErr DC :=
  match dcGetF dcFuel root s with
  | .ok dc => .ok (if deep then dc else dc.shallow)
  | .error .keyError =>
    match s.newDataclassFromId with
    | some dc => .ok dc
    | none => .error .indexError
  | .error e => .error e

/-- The reattach-then-store tail of `VanillaHyperparamsRepository.save`,
after scope validation: `scope2` is the sanitized scope with the node's
own coordinate popped (or the sanitized scope itself in the unset-id
branch). -/
def vanillaSaveCore (root dc : DC) (scope2 : ScopedLocation) (deep : Bool) :
    Option PErr × DC :=
  let step : Except PErr DC :=
    if deep then
      .ok dc
    else if dc.kind = Kind.root then
      match dc.withSubloc root.getSubloc with
      | some dc' => .ok dc'
      | none => .error .valueError
    else do
      let s' ← scope2.withDC dc
      let prev ← vanillaLoad root s' true
      match dc.withSubloc prev.getSubloc with
      | some dc' => .ok dc'
      | none => .error .valueError
  match step with
  | .error e => (some e, root)
  | .ok dc' =>
    if dc.kind = Kind.root then
      (none, dc')
    else
      updateAtF dcFuel root scope2 (fun parent => storeDC parent dc')

/-- `VanillaHyperparamsRepository.save`: sanitize the scope to the node's
type, validate the node's id against the scope coordinate (raising
`ValueError` on mismatch, or on a bad scope length when the coordinate is
unset), then reattach the prior deep sublocation when not `deep` and store
into the parent.  Returns the raised error (if any) together with the
repository root after the call. -/
def vanillaSave (root dc : DC) (scope : ScopedLocation) (deep : Bool) :
    Option PErr × DC :=
  let scope1 := scope.sliceAt dc.kind
  match scope.get dc.kind with
  | some i =>
    if dc.getId ≠ some i then
      (some .valueError, root)
    else
      vanillaSaveCore root dc (scope1.pop).2 deep
  | none =>
    if scope1.asList.length ≠ sublocIdx dc.kind then
      (some .valueError, root)
    else
      vanillaSaveCore root dc scope1 deep

/-- The default tree of a fresh `RootDataclass`: one default project
holding one default client with no rounds
(`RootDataclass.projects` / `ProjectDataclass.clients` defaults). -/
def defaultClientDC : DC := .client (some (.str "default_client")) [] none

/-- `ProjectDataclass()` with all defaults. -/
def defaultProjectDC : DC :=
  .project (some (.str "default_project"))
    [(some (.str "default_client"), some defaultClientDC)]

/-- `RootDataclass()` with all defaults, the state of a freshly
constructed `VanillaHyperparamsRepository`. -/
def defaultRootDC : DC :=
  .root [(some (.str "default_project"), some defaultProjectDC)]

/-! ### On-disk repository (`json_repo.py`)

The disk is a pair of association lists: record files (one
`metadata.json`-holding folder per saved scope, keyed by the folder's path
segments relative to the cache folder) and the set of created directories.
`BaseDataclass.empty`, `BaseDataclass.has_sublocation_dataclasses`,
`BaseDataclass.set_sublocation_keys` and `ScopedLocation.at_dc` are called
by `json_repo.py` but their definitions are not part of the provided
sources; they are modelled from the spec where needed (see the individual
doc comments). -/

/-- `str(attr)` for a scope attribute. -/
def attrStr : SAttr → String
  | .str s => s
  | .num n => toString n

/-- One path segment per coordinate: the fixed delimiter `"_"` followed by
the stringified coordinate (`get_folder_at_scope`). -/
def seg (a : SAttr) : String := "_" ++ attrStr a

/-- The folder of a scope, as path segments relative to the cache
folder. -/
def pathOfScope (s : ScopedLocation) : List String := s.asList.map seg

/-- Lexicographic comparison of character lists by code point, Python's
string ordering. -/
def charsLtB : List Char → List Char → Bool
  | [], [] => false
  | [], _ :: _ => true
  | _ :: _, [] => false
  | a :: as, b :: bs =>
    if a.toNat < b.toNat then true
    else if b.toNat < a.toNat then false
    else charsLtB as bs

/-- Python `<` on strings. -/
def strLtB (a b : String) : Bool := charsLtB a.toList b.toList

/-- Stable insertion into a lexically sorted list of strings. -/
def insertSorted (x : String) : List String → List String
  | [] => [x]
  | y :: ys => if strLtB x y then x :: y :: ys else y :: insertSorted x ys

/-- Python `sorted` on a list of strings (stable, ascending, lexicographic
by code point). -/
def sortStrings : List String → List String
  | [] => []
  | x :: xs => insertSorted x (sortStrings xs)

/-- The numeric value of a decimal digit character, if it is one. -/
def digitVal? (c : Char) : Option Nat :=
  if '0' ≤ c ∧ c ≤ '9' then some (c.toNat - '0'.toNat) else none

/-- Parse a non-empty all-digit character list as a natural number. -/
def digitsToNat? : List Char → Option Nat
  | [] => none
  | cs => cs.foldl (fun acc c =>
      match acc, digitVal? c with
      | some n, some d => some (n * 10 + d)
      | _, _ => none) (some 0)

/-- Python `int(s)` on the directory-name forms that occur here: an
optional minus sign followed by decimal digits; anything else fails
(Python raises `ValueError`). -/
def parseInt? (s : String) : Option Int :=
  match s.toList with
  | '-' :: rest => (digitsToNat? rest).map (fun n => -(n : Int))
  | l => (digitsToNat? l).map (fun n => (n : Int))

/-- The content of one scope's record file: either a well-formed
serialized dataclass (the JSON round-trip through `to_json`/`from_json` is
the identity on these) or malformed text that fails JSON parsing. -/
inductive FileRec where
  | valid (dc : DC)
  | malformed (raw : String)

/-- The state of the on-disk store. -/
structure DiskState where
  records : List (List String × FileRec)
  dirs : List (List String)

/-- Look up the record stored at a folder. -/
def recGet : List (List String × FileRec) → List String → Option FileRec
  | [], _ => none
  | (p, r) :: rest, q => if p = q then some r else recGet rest q

/-- Write (or overwrite) the record stored at a folder. -/
def recPut : List (List String × FileRec) → List String → FileRec →
    List (List String × FileRec)
  | [], q, r => [(q, r)]
  | (p, r') :: rest, q, r =>
    if p = q then (q, r) :: rest else (p, r') :: recPut rest q r

/-- Add a directory if missing. -/
def addDir (dirs : List (List String)) (d : List String) : List (List String) :=
  if d ∈ dirs then dirs else dirs ++ [d]

/-- `os.makedirs(..., exist_ok=True)`: create the folder and all its
ancestors. -/
def mkdirs (dirs : List (List String)) (folder : List String) :
    List (List String) :=
  (List.range (folder.length + 1)).foldl (fun ds i => addDir ds (folder.take i)) dirs

/-- The immediate child-directory names of a folder. -/
def childNames (dirs : List (List String)) (d : List String) : List String :=
  dirs.filterMap (fun p =>
    if p.length = d.length + 1 && p.take d.length = d then p.getLast? else none)

/-- `os.listdir` of a folder: its child directories plus its record file,
if any. -/
def listdirAll (st : DiskState) (d : List String) : List String :=
  childNames st.dirs d ++
    (if (recGet st.records d).isSome then ["metadata.json"] else [])

namespace DC

/-- Modelled from the spec: `BaseDataclass.has_sublocation_dataclasses`
(absent from the provided sources) — whether the node kind has a
sub-dataclass type at all, which `MetricResultsDataclass` (a leaf whose
sublocation holds floats) does not. -/
def hasSublocationDataclasses (dc : DC) : Bool := (subKind dc.kind).isSome

/-- Modelled from the spec: `BaseDataclass.empty` (absent from the
provided sources) — the record file written per node holds "the node's own
fields (not its children, which live in child directories)", so `empty`
clears the sublocation collection. -/
def empty (dc : DC) : DC :=
  match dc.getSubloc with
  | .dict _ => (dc.withSubloc (.dict [])).getD dc
  | .list _ => (dc.withSubloc (.list [])).getD dc
  | .values _ => (dc.withSubloc (.values [])).getD dc

/-- Modelled from the spec: `BaseDataclass.set_sublocation_keys` (absent
from the provided sources) — a shallow skeleton "replaces every child slot
with an unset placeholder (preserving only keys/indices)", so the dict
mixin receives the listed keys with unset values and the list mixin
receives one unset slot per listed key. -/
def setSublocKeys (dc : DC) (ks : List (Option SAttr)) : DC :=
  match dc.getSubloc with
  | .dict _ => (dc.withSubloc (.dict (ks.map (fun k => (k, none))))).getD dc
  | .list _ => (dc.withSubloc (.list (ks.map (fun _ => none)))).getD dc
  | .values _ => dc

/-- `get_sublocation_values()` as passed to the deep-save loop: dict
values (including unset placeholders) or the list itself. -/
def sublocValuesRaw (dc : DC) : List (Option DC) :=
  match dc.getSubloc with
  | .dict es => es.map Prod.snd
  | .list es => es
  | .values _ => []

end DC

/-- `HyperparamsOnDiskRepository._patch_scope_for_dataclass`: when the
dataclass has an id, align the scope with the dataclass
(`ScopedLocation.at_dc`, absent from the provided sources, modelled from
the spec's scope-sanity rule: "a node's own id, when present, must equal
the last coordinate of the scope under which it is saved; mismatch is a
fatal consistency error") and then set the dataclass's coordinate to its
id.  With no dataclass (the load path) or no id, the scope is returned
unchanged. -/
def patchScope (dc? : Option DC) (scope : ScopedLocation) :
    Except PErr ScopedLocation :=
  match dc? with
  | none => .ok scope
  | some dc =>
    match dc.getId with
    | none => .ok scope
    | some i =>
      let base := scope.sliceAt dc.kind
      match base.get dc.kind with
      | some j => if j = i then .ok base else .error .valueError
      | none => base.setItem dc.kind (some i)

/-- The deep-save loop over `get_sublocation_values()`, parameterized by
the one-child save; the first raised error aborts the loop, leaving the
writes made so far. -/
def diskSaveChildrenAux
    (saveF : DiskState → Option DC → ScopedLocation → Option PErr × DiskState) :
    DiskState → List (Option DC) → ScopedLocation → Option PErr × DiskState
  | st, [], _ => (none, st)
  | st, c :: cs, scope =>
    match saveF st c scope with
    | (some e, st') => (some e, st')
    | (none, st') => diskSaveChildrenAux saveF st' cs scope

/-- `HyperparamsOnDiskRepository._save_dc`: patch the scope for the
dataclass, create the folder, write the node's own record
(`to_json(_dataclass.empty())`), and when `deep`, recurse into every
sublocation value (an unset placeholder child raises `AttributeError`
after its folder handling, since Python calls `get_id`/`empty` on
`None`). -/
def diskSaveDC : Nat → DiskState → Option DC → ScopedLocation → Bool →
    Option PErr × DiskState
  | 0, st, _, _, _ => (some .depthExceeded, st)
  | fuel + 1, st, dc?, scope, deep =>
    match patchScope dc? scope with
    | .error e => (some e, st)
    | .ok scope' =>
      let folder := pathOfScope scope'
      let st1 : DiskState := { st with dirs := mkdirs st.dirs folder }
      match dc? with
      | none => (some .attributeError, st1)
      | some dc =>
        let st2 : DiskState :=
          { st1 with records := recPut st1.records folder (.valid dc.empty) }
        if deep && dc.hasSublocationDataclasses then
          diskSaveChildrenAux (fun st c sc => diskSaveDC fuel st c sc true)
            st2 dc.sublocValuesRaw scope'
        else
          (none, st2)

/-- `s.startswith(ON_DISK_DELIM)` followed by `s[len(ON_DISK_DELIM):]`
for the one-character delimiter, on the character-list view of the
string. -/
def stripDelim? (s : String) : Option String :=
  match s.toList with
  | '_' :: rest => some (String.mk rest)
  | _ => none

/-- The sorted, delimiter-stripped child-directory names of a scope's
folder (`_load_dc_sublocation_keys`): list the folder, keep the entries
starting with the delimiter, strip it, and sort the resulting strings
lexically. -/
def strippedSubdirs (st : DiskState) (folder : List String) : List String :=
  sortStrings ((listdirAll st folder).filterMap stripDelim?)

/-- For a list-mixin dataclass, convert the stripped names with `int(...)`
(done after the lexical sort); a non-numeric name raises `ValueError`. -/
def parseKeys : List String → Except PErr (List (Option SAttr))
  | [] => .ok []
  | s :: rest =>
    match parseInt? s with
    | none => .error .valueError
    | some i => (parseKeys rest).map (fun ks => some (SAttr.num i) :: ks)

/-- The deep-load loop, parameterized by the one-child load: `for
sub_dc_id in get_sublocation_keys(): store(_load_dc(scope.with_id(
sub_dc_id)))`; errors (including store errors) propagate. -/
def diskLoadChildrenAux (loadF : ScopedLocation → Except PErr DC) :
    DC → List (Option SAttr) → ScopedLocation → Except PErr DC
  | acc, [], _ => .ok acc
  | acc, k :: ks, scope =>
    match k with
    | none => .error .typeError
    | some a =>
      match loadF (scope.withId a) with
      | .error e => .error e
      | .ok sub =>
        match storeDC acc sub with
        | (some e, _) => .error e
        | (none, acc') => diskLoadChildrenAux loadF acc' ks scope

/-- `HyperparamsOnDiskRepository._load_dc`: read the record file at the
scope's folder (`KeyError` if absent, the fatal diagnosable `ValueError`
carrying the file path and the directory listing if malformed),
reconstruct the node, attach its sublocation keys from the child-directory
listing, and when `deep`, load every child recursively and `store` it into
the node. -/
def diskLoadDC : Nat → DiskState → ScopedLocation → Bool → Except PErr DC
  | 0, _, _, _ => .error .depthExceeded
  | fuel + 1, st, scope, deep =>
    let folder := pathOfScope scope
    match recGet st.records folder with
    | none => .error .keyError
    | some (.malformed _) =>
      .error (.jsonError (folder ++ ["metadata.json"]) (listdirAll st folder))
    | some (.valid dc) =>
      if dc.hasSublocationDataclasses then
        let stripped := strippedSubdirs st folder
        let keysE : Except PErr (List (Option SAttr)) :=
          if isListKind dc.kind then
            parseKeys stripped
          else
            .ok (stripped.map (fun s => some (.str s)))
        match keysE with
        | .error e => .error e
        | .ok ks =>
          let dc1 := dc.setSublocKeys ks
          if deep then
            diskLoadChildrenAux (fun sc => diskLoadDC fuel st sc true)
              dc1 dc1.sublocKeys scope
          else
            .ok dc1
      else
        .ok dc

/-- `HyperparamsOnDiskRepository.load`: `_load_dc`, with a missing record
(`KeyError`) recovered by `ScopedLocation.new_dataclass_from_id`; all
other errors (including the corrupt-store `ValueError`) propagate. -/
def diskLoad (st : DiskState) (scope : ScopedLocation) (deep : Bool) :
    Except PErr DC :=
  match diskLoadDC dcFuel st scope deep with
  | .ok dc => .ok dc
  | .error .keyError =>
    match scope.newDataclassFromId with
    | some dc => .ok dc
    | none => .error .indexError
  | .error e => .error e

/-- `HyperparamsOnDiskRepository.save` (delegates to `_save_dc`). -/
def diskSave (st : DiskState) (dc : DC) (scope : ScopedLocation) (deep : Bool) :
    Option PErr × DiskState :=
  diskSaveDC dcFuel st (some dc) scope deep

/-- The disk state of a freshly constructed
`HyperparamsOnDiskRepository`: its `__init__` deep-saves a default
`RootDataclass`. -/
def freshDiskState : DiskState :=
  (diskSaveDC dcFuel ⟨[], []⟩ (some defaultRootDC) {} true).2

/-- The folders currently holding a record file. -/
def recordPaths (st : DiskState) : List (List String) :=
  st.records.map Prod.fst

/-! ### Controller loop (`auto_ml.py`) -/

/-- An opaque pipeline step (`BaseStep`); only its identity matters to the
modelled control flow. -/
structure Pipeline where
  tag : Nat
  deriving DecidableEq, Repr

/-- An opaque data container (`DACT`). -/
structure DACT where
  tag : Nat
  deriving DecidableEq, Repr

/-- Embedding of `Trainer.refit` (`auto_ml.py` lines 153-168): the body's
first statement is `context.set_execution_phase(...)`, but no name
`context` is bound in the function (nor are `p`, `data_container` or
`self.epochs` defined), so every call raises `NameError` before any
training happens. -/
def trainerRefit (_pipeline : Pipeline) (_dact : DACT) (_trialScope : DC) :
    Except PErr Pipeline :=
  .error (.nameError "context")

/-- Modelled from the spec: the best index of a score list —
`aggregates.Round.managed_best_trial` is not among the provided sources;
per the spec, "best = highest if `higher_is_better` else lowest, ties
broken by earliest trial number", rendered as a fold that replaces the
incumbent only on strict improvement. -/
def bestTrialIdx (hib : Bool) (scores : List Rat) : Option Nat :=
  (scores.enum.foldl (fun best e =>
    match best with
    | none => some e
    | some b => if (if hib then b.2 < e.2 else e.2 < b.2) then some e else some b)
    none).map Prod.fst

/-- Modelled from the spec: the recorded validation score of a trial on
the main metric — the last recorded validation value of that metric's
result in the trial's first split (`none` when nothing was recorded). -/
def trialScore (mainMetric : String) (t : DC) : Option Rat :=
  match t with
  | .trial _ _ (some (.tsplit _ _ ms) :: _) =>
    match dictGet ms (some (.str mainMetric)) with
    | some (some (.metric _ vv _ _)) => (vv.filterMap id).getLast?
    | _ => none
  | _ => none

/-- The trials of a round that carry a recorded score, with their trial
numbers. -/
def roundTrialScores (mainMetric : String) (r : DC) : List (Nat × DC × Rat) :=
  match r with
  | .rnd _ ts => ts.enum.filterMap (fun e =>
      match e.2 with
      | some t => (trialScore mainMetric t).map (fun sc => (e.1, t, sc))
      | none => none)
  | _ => []

/-- Modelled from the spec: best-trial selection over a round
(`Round.managed_best_trial`, not among the provided sources). -/
def bestTrialOf (hib : Bool) (mainMetric : String) (r : DC) : Option DC :=
  ((roundTrialScores mainMetric r).foldl (fun best e =>
    match best with
    | none => some e
    | some b =>
      if (if hib then b.2.2 < e.2.2 else e.2.2 < b.2.2) then some e else some b)
    none).map (fun e => e.2.1)

/-- `BaseControllerLoop.refit_best_trial`: resume the most recent round
(`Client.resume_last_round`, not among the provided sources, modelled from
the spec as the client's last round), locate its best trial, and delegate
to `Trainer.refit` — which, as embedded above, raises `NameError`
unconditionally. -/
def refitBestTrial (p : Pipeline) (d : DACT) (client : DC) (hib : Bool)
    (mainMetric : String) : Except PErr Pipeline :=
  match client with
  | .client _ rounds _ =>
    match rounds.getLast? with
    | some (some r) =>
      match bestTrialOf hib mainMetric r with
      | some t => trainerRefit p d t
      | none => .error .valueError
    | _ => .error .valueError
  | _ => .error .typeError

/-! ### Concrete objects used by the witness theorems -/

/-- The default project name attribute. -/
def dpAttr : SAttr := .str "default_project"

/-- The default client name attribute. -/
def dclAttr : SAttr := .str "default_client"

/-- The scope of an unrecorded trial number 7 under the default round 0. -/
def trialScope7 : ScopedLocation :=
  ScopedLocation.ofList [dpAttr, dclAttr, .num 0, .num 7]

/-- The node `new_dataclass_from_id` actually builds for `trialScope7`:
the scope's trial number lands in `hyperparams` and the `trial_number`
field keeps its default `0`. -/
def misplacedTrial7 : DC :=
  .trial (some (.num 0)) { hyperparams := .attr (.num 7) } []

/-- A project dataclass with a non-string (integer) id, constructible in
Python since `ProjectDataclass._invariant` does not inspect the id. -/
def badIdProject : DC := .project (some (.num 5)) []

/-- A root whose default client holds one round with one trial with one
split (used to exercise the save frame property on a non-empty subtree). -/
def splitDC0 : DC := .tsplit (some (.num 0)) { hyperparams := .samples [] } []

/-- One trial holding one split. -/
def trialDC0 : DC :=
  .trial (some (.num 0)) { hyperparams := .samples [] } [some splitDC0]

/-- One round holding `trialDC0`. -/
def roundDC0 : DC := .rnd (some (.num 0)) [some trialDC0]

/-- A populated well-formed root: the default project and client, the
client holding `roundDC0`. -/
def populatedRootDC : DC :=
  .root [(some dpAttr, some (.project (some dpAttr)
    [(some dclAttr, some (.client (some dclAttr) [some roundDC0] none))]))]

/-- The scope of `roundDC0` in `populatedRootDC`. -/
def roundScope0 : ScopedLocation :=
  ScopedLocation.ofList [dpAttr, dclAttr, .num 0]

/-- A trial carrying one recorded validation score on metric "main". -/
def c8Trial (i : Nat) (sc : Rat) : DC :=
  .trial (some (.num i)) { hyperparams := .samples [] }
    [some (.tsplit (some (.num 0)) { hyperparams := .samples [] }
      [(some (.str "main"),
        some (.metric (some (.str "main")) [some sc] [] true))])]

/-- A round whose three trials scored `[0.7, 0.9, 0.5]` on "main". -/
def c8Round : DC :=
  .rnd (some (.num 0))
    [some (c8Trial 0 ((7 : Rat) / 10)), some (c8Trial 1 ((9 : Rat) / 10)),
     some (c8Trial 2 ((5 : Rat) / 10))]

/-- A client whose last (only) round is `c8Round`. -/
def c8Client : DC := .client (some (.str "c")) [some c8Round] none

/-- The round child of the numeric-order witness state. -/
def c7Child (i : Nat) : DC := .rnd (some (.num i)) []

/-- A disk state holding a client at folder `_p/_c` with eleven round
subdirectories `_0` … `_10` (so that the lexical sort of the names puts
`"10"` before `"2"`). -/
def c7ListState : DiskState where
  records :=
    (["_p", "_c"], .valid (.client (some (.str "c")) [] none)) ::
      (List.range 11).map (fun i =>
        (["_p", "_c", "_" ++ toString i], .valid (c7Child i)))
  dirs :=
    [[], ["_p"], ["_p", "_c"]] ++
      (List.range 11).map (fun i => ["_p", "_c", "_" ++ toString i])

/-- The scope of the client in `c7ListState`. -/
def c7Scope : ScopedLocation := ScopedLocation.ofList [.str "p", .str "c"]

/-- A metric-results node for the map-order witness state. -/
def c7Metric (nm : String) : DC := .metric (some (.str nm)) [] [] true

/-- A disk state holding a trial split at folder `_0` with two metric
subdirectories listed out of lexical order on disk. -/
def c7DictState : DiskState where
  records :=
    [(["_0"], .valid (.tsplit (some (.num 0)) { hyperparams := .samples [] } [])),
     (["_0", "_f1"], .valid (c7Metric "f1")),
     (["_0", "_acc"], .valid (c7Metric "acc"))]
  dirs := [[], ["_0"], ["_0", "_f1"], ["_0", "_acc"]]

/-- The scope of the split in `c7DictState`. -/
def c7DictScope : ScopedLocation := ScopedLocation.ofList [.num 0]

/-- A disk state whose record at folder `_p` holds malformed content. -/
def c6State : DiskState where
  records := [(["_p"], .malformed "not json")]
  dirs := [[], ["_p"]]

/-! ## Theorems

First a small kit of lemmas about `ScopedLocation`'s list view. -/

theorem takeSome_length_le : ∀ l : List (Option SAttr),
    (ScopedLocation.takeSome l).length ≤ l.length
  | [] => by simp [ScopedLocation.takeSome]
  | none :: rest => by simp [ScopedLocation.takeSome]
  | some _ :: rest => by
      simpa [ScopedLocation.takeSome] using takeSome_length_le rest

theorem asList_length_le (s : ScopedLocation) : s.asList.length ≤ 6 :=
  (takeSome_length_le s.fieldsList).trans (by simp [ScopedLocation.fieldsList])

theorem asList_ofList : ∀ l : List SAttr, l.length ≤ 6 →
    (ScopedLocation.ofList l).asList = l
  | [], _ => rfl
  | [_], _ => rfl
  | [_, _], _ => rfl
  | [_, _, _], _ => rfl
  | [_, _, _, _], _ => rfl
  | [_, _, _, _, _], _ => rfl
  | [_, _, _, _, _, _], _ => rfl
  | _ :: _ :: _ :: _ :: _ :: _ :: _ :: _, h => by simp at h

theorem pop_ofList_append : ∀ l : List SAttr, ∀ a : SAttr, l.length ≤ 5 →
    (ScopedLocation.ofList (l ++ [a])).pop = (some a, ScopedLocation.ofList l)
  | [], _, _ => rfl
  | [_], _, _ => rfl
  | [_, _], _, _ => rfl
  | [_, _, _], _, _ => rfl
  | [_, _, _, _], _, _ => rfl
  | [_, _, _, _, _], _, _ => rfl
  | _ :: _ :: _ :: _ :: _ :: _ :: _, _, h => by simp at h

theorem withId_ofList (l : List SAttr) (a : SAttr) (h : l.length ≤ 6) :
    (ScopedLocation.ofList l).withId a = ScopedLocation.ofList (l ++ [a]) := by
  unfold ScopedLocation.withId
  rw [asList_ofList l h]

/-- C9: `ScopedLocation().with_id(x).with_id(y).as_list() == [x, y]` for
all ids `x`, `y`; and popping the last set coordinate of any gap-free
location with at least one set coordinate, then re-appending the popped
value with `with_id`, restores an equal location. -/
theorem withId_asList_and_pop_roundtrip :
    (∀ x y : SAttr,
      ((({} : ScopedLocation).withId x).withId y).asList = [x, y]) ∧
    (∀ s : ScopedLocation, ScopedLocation.ofList s.asList = s →
      s.asList ≠ [] →
      ∃ a s', s.pop = (some a, s') ∧ s'.withId a = s) := by
  constructor
  · intro x y
    rfl
  · intro s hs hne
    rcases List.eq_nil_or_concat s.asList with h | ⟨l', a, hla⟩
    · exact absurd h hne
    rw [List.concat_eq_append] at hla
    have hlen := asList_length_le s
    rw [hla] at hlen
    simp only [List.length_append, List.length_cons, List.length_nil] at hlen
    refine ⟨a, ScopedLocation.ofList l', ?_, ?_⟩
    · rw [← hs, hla]
      exact pop_ofList_append l' a (by omega)
    · rw [withId_ofList l' a (by omega), ← hla, hs]

/-- Witness for C9's quantifiers and hypotheses at concrete inputs. -/
theorem withId_asList_and_pop_roundtrip_witness :
    ((({} : ScopedLocation).withId (.str "p")).withId (.num 3)).asList =
      [SAttr.str "p", SAttr.num 3] ∧
    ∃ a s', (ScopedLocation.ofList [SAttr.str "p", SAttr.num 3]).pop = (some a, s') ∧
      s'.withId a = ScopedLocation.ofList [SAttr.str "p", SAttr.num 3] :=
  ⟨withId_asList_and_pop_roundtrip.1 (.str "p") (.num 3),
   withId_asList_and_pop_roundtrip.2 (ScopedLocation.ofList [SAttr.str "p", SAttr.num 3])
     rfl (by decide)⟩

/-! ### Store lemmas (C3, C4) -/

theorem withSubloc_list_getSubloc (parent : DC) (es : List (Option DC))
    (es' : List (Option DC)) (h : parent.getSubloc = .list es) :
    ((parent.withSubloc (.list es')).getD parent).getSubloc = .list es' := by
  cases parent <;> simp_all [DC.getSubloc, DC.withSubloc]

theorem withSubloc_dict_getSubloc (parent : DC)
    (es es' : List (Option SAttr × Option DC)) (h : parent.getSubloc = .dict es) :
    ((parent.withSubloc (.dict es')).getD parent).getSubloc = .dict es' := by
  cases parent <;> simp_all [DC.getSubloc, DC.withSubloc]

/-- C3: storing into a list-keyed parent of length `L`: an id equal to `L`
appends (length `L + 1`); an id that is an existing index `i < L`
overwrites slot `i` without changing the length; an id strictly greater
than `L` raises `ValueError` and leaves the parent unchanged. -/
theorem store_list_append_overwrite_gap :
    (∀ (parent child : DC) (es : List (Option DC)),
      parent.getSubloc = .list es →
      child.getId = some (.num (es.length : Int)) →
      ∃ parent', storeDC parent child = (none, parent') ∧
        parent'.getSubloc = .list (es ++ [some child]) ∧
        (es ++ [some child]).length = es.length + 1) ∧
    (∀ (parent child : DC) (es : List (Option DC)) (i : Nat),
      parent.getSubloc = .list es →
      child.getId = some (.num (i : Int)) → i < es.length →
      ∃ parent', storeDC parent child = (none, parent') ∧
        parent'.getSubloc = .list (es.set i (some child)) ∧
        (es.set i (some child)).length = es.length) ∧
    (∀ (parent child : DC) (es : List (Option DC)) (i : Int),
      parent.getSubloc = .list es →
      child.getId = some (.num i) → (es.length : Int) < i →
      storeDC parent child = (some .valueError, parent)) := by
  refine ⟨?_, ?_, ?_⟩
  · intro parent child es h1 h2
    have hstep : storeDC parent child =
        (none, (parent.withSubloc (.list (es ++ [some child]))).getD parent) := by
      simp [storeDC, h1, h2]
    exact ⟨_, hstep, withSubloc_list_getSubloc parent es _ h1, by simp⟩
  · intro parent child es i h1 h2 hi
    have hstep : storeDC parent child =
        (none, (parent.withSubloc (.list (es.set i (some child)))).getD parent) := by
      simp only [storeDC, h1, h2]
      split_ifs <;> first
      | (exfalso; omega)
      | simp [Int.toNat_natCast]
    exact ⟨_, hstep, withSubloc_list_getSubloc parent es _ h1, by simp⟩
  · intro parent child es i h1 h2 hi
    simp only [storeDC, h1, h2]
    split_ifs <;> first
    | rfl
    | (exfalso; omega)

/-- Witness for C3 on a round with one trial: append at id 1, overwrite at
id 0, gap failure at id 2. -/
theorem store_list_append_overwrite_gap_witness :
    (∃ parent', storeDC roundDC0 (.trial (some (.num 1))
        { hyperparams := .samples [] } []) = (none, parent') ∧
      parent'.getSubloc = .list [some trialDC0, some (.trial (some (.num 1))
        { hyperparams := .samples [] } [])] ∧
      ([some trialDC0, some (.trial (some (.num 1))
        { hyperparams := .samples [] } [])]).length = 2) ∧
    (∃ parent', storeDC roundDC0 (.trial (some (.num 0))
        { hyperparams := .samples [] } []) = (none, parent') ∧
      parent'.getSubloc = .list [some (.trial (some (.num 0))
        { hyperparams := .samples [] } [])] ∧
      ([some (DC.trial (some (.num 0)) { hyperparams := .samples [] } [])]).length = 1) ∧
    storeDC roundDC0 (.trial (some (.num 2)) { hyperparams := .samples [] } []) =
      (some .valueError, roundDC0) := by
  refine ⟨?_, ?_, ?_⟩
  · simpa using store_list_append_overwrite_gap.1 roundDC0
      (.trial (some (.num 1)) { hyperparams := .samples [] } []) [some trialDC0] rfl rfl
  · simpa using store_list_append_overwrite_gap.2.1 roundDC0
      (.trial (some (.num 0)) { hyperparams := .samples [] } []) [some trialDC0] 0 rfl rfl
      (by decide)
  · exact store_list_append_overwrite_gap.2.2 roundDC0
      (.trial (some (.num 2)) { hyperparams := .samples [] } []) [some trialDC0] 2 rfl rfl
      (by decide)

/-- The stored pair is present after a `dictPut`. -/
theorem mem_dictPut_self : ∀ (es : List (Option SAttr × Option DC))
    (k : Option SAttr) (v : Option DC), (k, v) ∈ dictPut es k v
  | [], _, _ => by simp [dictPut]
  | (k', v') :: rest, k, v => by
      by_cases h : k' = k <;> simp [dictPut, h, mem_dictPut_self rest k v]

/-- C4 counterexample: the claim says a store violating the node's
invariant leaves the sublocation collection unchanged, but storing a
project with integer id `5` into a fresh root raises `ValueError` with the
invalid entry already inserted: the keys grow from one to two. -/
theorem store_dict_no_rollback_counterexample :
    (storeDC defaultRootDC badIdProject).1 = some .valueError ∧
    (storeDC defaultRootDC badIdProject).2.sublocKeys =
      [some dpAttr, some (.num 5)] ∧
    defaultRootDC.sublocKeys = [some dpAttr] ∧
    (storeDC defaultRootDC badIdProject).2.sublocKeys ≠ defaultRootDC.sublocKeys := by
  exact ⟨rfl, rfl, rfl, by decide⟩

theorem withSubloc_getD_kind (dc : DC) (sl : Subloc) :
    ((dc.withSubloc sl).getD dc).kind = dc.kind := by
  cases dc <;> cases sl <;> simp [DC.withSubloc, DC.kind]

theorem dcInvariantErr_some_of (parent' : DC)
    (es' : List (Option SAttr × Option DC)) (h : parent'.getSubloc = .dict es')
    (hbad : ∃ e ∈ es', isStrAttr e.1 = false ∨
      ∃ c, e.2 = some c ∧ some c.kind ≠ subKind parent'.kind) :
    dcInvariantErr parent' = some .valueError := by
  rw [dcInvariantErr, h]
  obtain ⟨e, he, hb⟩ := hbad
  rcases hb with hk | ⟨c, hc, hck⟩
  · have h1 : es'.all (fun e => isStrAttr e.1) = false :=
      List.all_eq_false.mpr ⟨e, he, by simp [hk]⟩
    simp [h1]
  · have h2 : es'.all (fun e => match e.2 with
        | none => true
        | some c => decide (some c.kind = subKind parent'.kind)) = false := by
      refine List.all_eq_false.mpr ⟨e, he, ?_⟩
      simp [hc, hck]
    simp [h2]

/-- C4 (amended): a store whose insertion would violate a map-sublocation
node's invariant — a non-string key (the child's id) or a child of the
wrong dataclass type — raises `ValueError`, but the invariant is
re-validated only after the mutation, so the failed store leaves the
invalid entry inserted in the sublocation (no rollback); list-sublocation
stores reject an id above the next free index before any mutation. -/
theorem store_invariant_violation_behaviour :
    (∀ (parent child : DC) (es : List (Option SAttr × Option DC)),
      parent.getSubloc = .dict es →
      (isStrAttr child.getId = false ∨ some child.kind ≠ subKind parent.kind) →
      ∃ parent', storeDC parent child = (some .valueError, parent') ∧
        parent'.getSubloc = .dict (dictPut es child.getId (some child)) ∧
        (child.getId, some child) ∈ dictPut es child.getId (some child)) ∧
    (∀ (parent child : DC) (es : List (Option DC)) (i : Int),
      parent.getSubloc = .list es →
      child.getId = some (.num i) → (es.length : Int) < i →
      storeDC parent child = (some .valueError, parent)) := by
  constructor
  · intro parent child es h1 hviol
    set parent' := (parent.withSubloc
      (.dict (dictPut es child.getId (some child)))).getD parent with hp'
    have hsub : parent'.getSubloc = .dict (dictPut es child.getId (some child)) :=
      withSubloc_dict_getSubloc parent es _ h1
    have hkind : parent'.kind = parent.kind := withSubloc_getD_kind parent _
    have hmem : (child.getId, some child) ∈ dictPut es child.getId (some child) :=
      mem_dictPut_self es child.getId (some child)
    have hinv : dcInvariantErr parent' = some .valueError := by
      refine dcInvariantErr_some_of parent' _ hsub
        ⟨(child.getId, some child), hmem, ?_⟩
      rcases hviol with hk | hne
      · exact Or.inl hk
      · exact Or.inr ⟨child, rfl, by rw [hkind]; exact hne⟩
    refine ⟨parent', ?_, hsub, hmem⟩
    simp only [storeDC, h1, ← hp', hinv]
  · exact store_list_append_overwrite_gap.2.2

/-- Witness for C4's amended statement: the dict half at both violation
classes — the integer-keyed project of the counterexample and a
client-typed child stored under a string key into the root — and the list
half at a gap store on `roundDC0`. -/
theorem store_invariant_violation_behaviour_witness :
    (∃ parent', storeDC defaultRootDC badIdProject = (some .valueError, parent') ∧
      parent'.getSubloc = .dict (dictPut
        [(some dpAttr, some defaultProjectDC)] (some (.num 5)) (some badIdProject)) ∧
      (some (SAttr.num 5), some badIdProject) ∈ dictPut
        [(some dpAttr, some defaultProjectDC)] (some (.num 5)) (some badIdProject)) ∧
    (∃ parent', storeDC defaultRootDC (.client (some (.str "x")) [] none) =
        (some .valueError, parent') ∧
      parent'.getSubloc = .dict (dictPut [(some dpAttr, some defaultProjectDC)]
        (some (.str "x")) (some (.client (some (.str "x")) [] none))) ∧
      (some (SAttr.str "x"), some (DC.client (some (.str "x")) [] none)) ∈ dictPut
        [(some dpAttr, some defaultProjectDC)]
        (some (.str "x")) (some (.client (some (.str "x")) [] none))) ∧
    storeDC roundDC0 (.trial (some (.num 2)) { hyperparams := .samples [] } []) =
      (some .valueError, roundDC0) := by
  refine ⟨?_, ?_, ?_⟩
  · exact store_invariant_violation_behaviour.1 defaultRootDC badIdProject
      [(some dpAttr, some defaultProjectDC)] rfl (Or.inl (by decide))
  · exact store_invariant_violation_behaviour.1 defaultRootDC
      (.client (some (.str "x")) [] none)
      [(some dpAttr, some defaultProjectDC)] rfl (Or.inr (by decide))
  · exact store_invariant_violation_behaviour.2 roundDC0
      (.trial (some (.num 2)) { hyperparams := .samples [] } []) [some trialDC0] 2 rfl rfl
      (by decide)

/-! ### Not-found loads (C2) and the fresh default tree (C10) -/

/-- C2 evaluated at its failing input: loading the unrecorded trial scope
`(default_project, default_client, 0, 7)` signals no error, but the
returned node does not carry the scope's id: `new_dataclass_from_id`
passes the id as the first positional constructor argument, which for
`TrialDataclass` is the `hyperparams` field (dataclass fields are
collected in reverse MRO order), so `trial_number` stays `0`.  Both
repository variants return this node. -/
theorem load_missing_trial_misplaces_id :
    vanillaLoad defaultRootDC trialScope7 false = .ok misplacedTrial7 ∧
    diskLoad freshDiskState trialScope7 false = .ok misplacedTrial7 ∧
    misplacedTrial7.getId ≠ some (.num 7) :=
  ⟨rfl, rfl, by decide⟩

/-- C10: a freshly constructed repository is not empty — its root holds
exactly one project `"default_project"`, holding exactly one client
`"default_client"` with no rounds; a deep load of the root scope returns
this two-level tree (a shallow load returns the root with the project key
as a placeholder), and the fresh on-disk repository holds record files for
exactly this root, project and client. -/
theorem fresh_repository_default_tree :
    defaultRootDC = .root [(some dpAttr, some (.project (some dpAttr)
      [(some dclAttr, some (.client (some dclAttr) [] none))]))] ∧
    vanillaLoad defaultRootDC {} true = .ok defaultRootDC ∧
    vanillaLoad defaultRootDC {} false = .ok (.root [(some dpAttr, none)]) ∧
    recordPaths freshDiskState =
      [[], ["_default_project"], ["_default_project", "_default_client"]] ∧
    recGet freshDiskState.records ["_default_project", "_default_client"] =
      some (.valid (.client (some dclAttr) [] none)) :=
  ⟨rfl, rfl, rfl, rfl, rfl⟩

/-! ### Corrupt-store loads (C6) -/

/-- C6: loading a scope whose record file exists but holds content that
fails to parse raises the fatal `ValueError` that reports the offending
file path and the listing of the directory around it, instead of
returning a default node; this holds for shallow and deep loads alike
(and the load path performs no writes, matching the read-only
`_load_dc`). -/
theorem corrupt_record_fatal_diagnosable (st : DiskState)
    (scope : ScopedLocation) (raw : String) (deep : Bool)
    (h : recGet st.records (pathOfScope scope) = some (.malformed raw)) :
    diskLoad st scope deep =
      .error (.jsonError (pathOfScope scope ++ ["metadata.json"])
        (listdirAll st (pathOfScope scope))) := by
  have hdc : diskLoadDC dcFuel st scope deep =
      .error (.jsonError (pathOfScope scope ++ ["metadata.json"])
        (listdirAll st (pathOfScope scope))) := by
    show diskLoadDC (7 + 1) st scope deep = _
    simp [diskLoadDC, h]
  simp [diskLoad, hdc]

/-- Witness for C6 at a concrete corrupt state. -/
theorem corrupt_record_fatal_diagnosable_witness :
    diskLoad c6State (ScopedLocation.ofList [.str "p"]) false =
      .error (.jsonError ["_p", "metadata.json"] ["metadata.json"]) :=
  corrupt_record_fatal_diagnosable c6State (ScopedLocation.ofList [.str "p"])
    "not json" false rfl

/-! ### Scope-sanity validation in `save` (C5) -/

theorem get_ofList (l : List SAttr) (k : Kind) (d : Nat) (h : idIdx k = some d) :
    (ScopedLocation.ofList l).get k = l[d]? := by
  cases k <;> simp_all [idIdx, ScopedLocation.get, ScopedLocation.ofList]

theorem sliceAt_eq (s : ScopedLocation) (k : Kind) (d : Nat)
    (h : idIdx k = some d) :
    s.sliceAt k = ScopedLocation.ofList (s.asList.take (d + 1)) := by
  cases k <;> simp_all [idIdx, ScopedLocation.sliceAt]

theorem idIdx_isSome_of_ne_root (k : Kind) (h : k ≠ .root) :
    ∃ d, idIdx k = some d := by
  cases k <;> simp_all [idIdx]

/-- With no gaps, slicing at the node's own kind when that coordinate is
unset leaves the location unchanged. -/
theorem sliceAt_of_get_none (s : ScopedLocation) (k : Kind) (d : Nat)
    (hd : idIdx k = some d) (hs : ScopedLocation.ofList s.asList = s)
    (hget : s.get k = none) : s.sliceAt k = s := by
  have hidx : s.asList[d]? = none := by
    rw [← hs] at hget
    rwa [get_ofList _ _ _ hd] at hget
  have hlen : s.asList.length ≤ d := by
    by_contra hlt
    push_neg at hlt
    rw [List.getElem?_eq_getElem hlt] at hidx
    simp at hidx
  rw [sliceAt_eq s k d hd, List.take_of_length_le (by omega), hs]

theorem recGet_recPut_self : ∀ (rs : List (List String × FileRec))
    (q : List String) (r : FileRec), recGet (recPut rs q r) q = some r
  | [], q, r => by simp [recPut, recGet]
  | (p, r') :: rest, q, r => by
      by_cases hq : p = q
      · simp [recPut, recGet, hq]
      · simp [recPut, recGet, hq, recGet_recPut_self rest q r]

/-- C5 counterexample: the claim extends the unset-id length validation to
both repository variants, but `_patch_scope_for_dataclass` skips every
check when the node's id is unset, so saving an id-less round under the
length-1 scope `(default_project,)` on the fresh on-disk repository raises
nothing and overwrites the project's record file with the round's record —
while the vanilla repository raises `ValueError` on the same input. -/
theorem disk_unset_id_save_counterexample :
    (diskSave freshDiskState (.rnd none []) (ScopedLocation.ofList [dpAttr]) false).1
      = none ∧
    recGet (diskSave freshDiskState (.rnd none [])
        (ScopedLocation.ofList [dpAttr]) false).2.records ["_default_project"] =
      some (.valid (.rnd none [])) ∧
    vanillaSave defaultRootDC (.rnd none []) (ScopedLocation.ofList [dpAttr]) false =
      (some .valueError, defaultRootDC) :=
  ⟨rfl, rfl, rfl⟩

/-- C5 (amended): if the node's own id is set and the scope's coordinate
for the node's type differs from it, `save` raises `ValueError` and
persists nothing (both repository variants); if the node's id is unset,
the vanilla repository fails whenever the sanitized scope's length differs
from the position implied by the node's type, but the on-disk repository
skips all validation for an unset id and writes the node's record at the
given scope's folder.  The on-disk conjuncts go through the spec-modelled
`ScopedLocation.at_dc` inside `_patch_scope_for_dataclass`. -/
theorem save_scope_sanity :
    (∀ (root dc : DC) (s : ScopedLocation) (deep : Bool) (i j : SAttr),
      dc.getId = some i → s.get dc.kind = some j → j ≠ i →
      vanillaSave root dc s deep = (some .valueError, root)) ∧
    (∀ (root dc : DC) (s : ScopedLocation) (deep : Bool),
      dc.getId = none → dc.kind ≠ .root →
      ScopedLocation.ofList s.asList = s →
      s.asList.length ≠ sublocIdx dc.kind →
      vanillaSave root dc s deep = (some .valueError, root)) ∧
    (∀ (st : DiskState) (dc : DC) (s : ScopedLocation) (deep : Bool) (i j : SAttr),
      dc.getId = some i → s.get dc.kind = some j →
      ScopedLocation.ofList s.asList = s → j ≠ i →
      diskSave st dc s deep = (some .valueError, st)) ∧
    (∀ (st : DiskState) (dc : DC) (s : ScopedLocation),
      dc.getId = none →
      diskSave st dc s false =
        (none, ⟨recPut st.records (pathOfScope s) (.valid dc.empty),
          mkdirs st.dirs (pathOfScope s)⟩) ∧
      recGet (recPut st.records (pathOfScope s) (.valid dc.empty))
        (pathOfScope s) = some (.valid dc.empty)) := by
  refine ⟨?_, ?_, ?_, ?_⟩
  · intro root dc s deep i j hid hget hij
    simp only [vanillaSave, hget, hid]
    rw [if_pos]
    simp only [ne_eq, Option.some_inj]
    exact fun h => hij (h.symm)
  · intro root dc s deep hid hroot hs hlen
    obtain ⟨d, hd⟩ := idIdx_isSome_of_ne_root dc.kind hroot
    cases hget : s.get dc.kind with
    | some j =>
      simp only [vanillaSave, hget, hid]
      rw [if_pos]
      simp
    | none =>
      simp only [vanillaSave, hget]
      rw [sliceAt_of_get_none s dc.kind d hd hs hget, if_pos hlen]
  · intro st dc s deep i j hid hget hs hij
    have hslice : (s.sliceAt dc.kind).get dc.kind = some j := by
      obtain ⟨d, hd⟩ := by
        refine idIdx_isSome_of_ne_root dc.kind ?_
        intro hroot
        rw [hroot] at hget
        simp [ScopedLocation.get] at hget
      rw [sliceAt_eq s dc.kind d hd, get_ofList _ _ _ hd,
        List.getElem?_take_of_lt (by omega), ← get_ofList _ _ _ hd, hs, hget]
    show diskSaveDC (7 + 1) st (some dc) s deep = (some .valueError, st)
    simp only [diskSaveDC, patchScope, hid, hslice]
    rw [if_neg]
    intro h
    exact hij h
  · intro st dc s hid
    have hpatch : patchScope (some dc) s = .ok s := by
      simp [patchScope, hid]
    constructor
    · show diskSaveDC (7 + 1) st (some dc) s false = _
      simp only [diskSaveDC, hpatch, Bool.false_and, Bool.false_eq_true, if_false]
    · exact recGet_recPut_self st.records (pathOfScope s) (.valid dc.empty)

/-- Witness for C5's amended statement: an id/scope mismatch on a round
save, a vanilla unset-id save at a wrong-length scope, the on-disk
mismatch, and the on-disk unset-id save that silently writes the round's
record over the project's record, all at concrete inputs. -/
theorem save_scope_sanity_witness :
    vanillaSave defaultRootDC (.rnd (some (.num 1)) []) roundScope0 false =
      (some .valueError, defaultRootDC) ∧
    vanillaSave defaultRootDC (.rnd none []) (ScopedLocation.ofList [dpAttr]) false =
      (some .valueError, defaultRootDC) ∧
    diskSave freshDiskState (.rnd (some (.num 1)) []) roundScope0 false =
      (some .valueError, freshDiskState) ∧
    (diskSave freshDiskState (.rnd none []) (ScopedLocation.ofList [dpAttr]) false =
      (none, ⟨recPut freshDiskState.records
          (pathOfScope (ScopedLocation.ofList [dpAttr]))
          (.valid (DC.rnd none []).empty),
        mkdirs freshDiskState.dirs (pathOfScope (ScopedLocation.ofList [dpAttr]))⟩) ∧
     recGet (recPut freshDiskState.records
          (pathOfScope (ScopedLocation.ofList [dpAttr]))
          (.valid (DC.rnd none []).empty))
        (pathOfScope (ScopedLocation.ofList [dpAttr])) =
      some (.valid (DC.rnd none []).empty)) := by
  refine ⟨?_, ?_, ?_, ?_⟩
  · exact save_scope_sanity.1 defaultRootDC (.rnd (some (.num 1)) []) roundScope0
      false (.num 1) (.num 0) rfl rfl (by decide)
  · exact save_scope_sanity.2.1 defaultRootDC (.rnd none [])
      (ScopedLocation.ofList [dpAttr]) false rfl (by decide) rfl (by decide)
  · exact save_scope_sanity.2.2.1 freshDiskState (.rnd (some (.num 1)) []) roundScope0
      false (.num 1) (.num 0) rfl rfl rfl (by decide)
  · exact save_scope_sanity.2.2.2 freshDiskState (.rnd none [])
      (ScopedLocation.ofList [dpAttr]) rfl

/-! ### Best-trial selection and refit (C8) -/

/-- C8 evaluated at its failing input: over validation scores
`[0.7, 0.9, 0.5]` the spec-modelled selection picks trial index 1 when
`higher_is_better` and index 2 otherwise (ties broken by earliest index by
construction of the fold), but `Trainer.refit` as written references the
unbound names `context`, `p`, `data_container` and `self.epochs`
(`auto_ml.py` lines 164-168), so `refit_best_trial` raises `NameError`
instead of returning a re-trained pipeline copy. -/
theorem refit_best_trial_selection_and_refit_error :
    bestTrialIdx true [(7 : Rat) / 10, (9 : Rat) / 10, (5 : Rat) / 10] = some 1 ∧
    bestTrialIdx false [(7 : Rat) / 10, (9 : Rat) / 10, (5 : Rat) / 10] = some 2 ∧
    bestTrialOf true "main" c8Round = some (c8Trial 1 ((9 : Rat) / 10)) ∧
    (∀ (p : Pipeline) (d : DACT) (t : DC),
      trainerRefit p d t = .error (.nameError "context")) ∧
    refitBestTrial ⟨0⟩ ⟨0⟩ c8Client true "main" = .error (.nameError "context") := by
  have hbest : bestTrialOf true "main" c8Round = some (c8Trial 1 ((9 : Rat) / 10)) := by
    norm_num [bestTrialOf, roundTrialScores, c8Round, c8Trial, trialScore, dictGet,
      List.enum, List.enumFrom, List.filterMap, List.foldl]
  refine ⟨?_, ?_, hbest, fun _ _ _ => rfl, ?_⟩
  · norm_num [bestTrialIdx, List.enum, List.enumFrom, List.foldl]
  · norm_num [bestTrialIdx, List.enum, List.enumFrom, List.foldl]
  · simp [refitBestTrial, c8Client, hbest, trainerRefit]

/-! ### Order facts about Python string sorting (for C7) -/

theorem charsLtB_irrefl : ∀ l : List Char, charsLtB l l = false
  | [] => rfl
  | c :: rest => by simp [charsLtB, charsLtB_irrefl rest]

theorem charsLtB_trans : ∀ a b c : List Char,
    charsLtB a b = true → charsLtB b c = true → charsLtB a c = true
  | [], [], _, h1, _ => by simp [charsLtB] at h1
  | [], _ :: _, [], _, h2 => by simp [charsLtB] at h2
  | [], _ :: _, _ :: _, _, _ => by simp [charsLtB]
  | _ :: _, [], _, h1, _ => by simp [charsLtB] at h1
  | _ :: _, _ :: _, [], _, h2 => by simp [charsLtB] at h2
  | x :: xs, y :: ys, z :: zs, h1, h2 => by
      simp only [charsLtB] at h1 h2 ⊢
      split_ifs at h1 h2 ⊢ <;> first
      | rfl
      | omega
      | exact charsLtB_trans xs ys zs h1 h2

theorem strLtB_asymm (a b : String) (h : strLtB a b = true) :
    strLtB b a = false := by
  by_contra hba
  rw [Bool.not_eq_false] at hba
  have := charsLtB_trans a.toList b.toList a.toList h hba
  rw [charsLtB_irrefl] at this
  exact Bool.false_ne_true this

theorem strLtB_trans (a b c : String) (h1 : strLtB a b = true)
    (h2 : strLtB b c = true) : strLtB a c = true :=
  charsLtB_trans a.toList b.toList c.toList h1 h2

/-- The non-strict order maintained by the sort. -/
def strLeB (a b : String) : Prop := strLtB b a = false

theorem insertSorted_perm (x : String) : ∀ l : List String,
    (insertSorted x l).Perm (x :: l)
  | [] => by simp [insertSorted]
  | y :: ys => by
      by_cases h : strLtB x y = true
      · simp [insertSorted, h]
      · rw [Bool.not_eq_true] at h
        simp only [insertSorted, h]
        exact ((insertSorted_perm x ys).cons y).trans (List.Perm.swap x y ys)

theorem sortStrings_perm : ∀ l : List String, (sortStrings l).Perm l
  | [] => by simp [sortStrings]
  | x :: xs => by
      simpa [sortStrings] using
        (insertSorted_perm x (sortStrings xs)).trans ((sortStrings_perm xs).cons x)

theorem insertSorted_pairwise (x : String) : ∀ l : List String,
    l.Pairwise strLeB → (insertSorted x l).Pairwise strLeB
  | [], _ => by simp [insertSorted, List.pairwise_singleton]
  | y :: ys, hp => by
      rcases List.pairwise_cons.mp hp with ⟨hy, hys⟩
      by_cases h : strLtB x y = true
      · simp only [insertSorted, h, if_true]
        refine List.pairwise_cons.mpr ⟨?_, hp⟩
        intro z hz
        rcases List.mem_cons.mp hz with rfl | hz2
        · exact strLtB_asymm x z h
        · show strLtB z x = false
          by_contra hzx
          rw [Bool.not_eq_false] at hzx
          have hzy : strLtB z y = true := strLtB_trans z x y hzx h
          have hyz := hy z hz2
          rw [hyz] at hzy
          exact Bool.false_ne_true hzy
      · rw [Bool.not_eq_true] at h
        simp only [insertSorted, h]
        refine List.pairwise_cons.mpr ⟨?_, insertSorted_pairwise x ys hys⟩
        intro z hz
        have hz' := (insertSorted_perm x ys).mem_iff.mp hz
        rcases List.mem_cons.mp hz' with rfl | hz2
        · exact h
        · exact hy z hz2

theorem sortStrings_pairwise : ∀ l : List String,
    (sortStrings l).Pairwise strLeB
  | [] => by simp [sortStrings]
  | x :: xs => insertSorted_pairwise x (sortStrings xs) (sortStrings_pairwise xs)

/-! ### Dict and store helper lemmas (C7) -/

theorem dictPut_fst_of_mem : ∀ (es : List (Option SAttr × Option DC))
    (k : Option SAttr) (v : Option DC), k ∈ es.map Prod.fst →
    (dictPut es k v).map Prod.fst = es.map Prod.fst
  | [], _, _, h => by simp at h
  | (k', v') :: rest, k, v, h => by
      by_cases hk : k' = k
      · simp [dictPut, hk]
      · have hmem : k ∈ rest.map Prod.fst := by
          simp only [List.map_cons] at h
          rcases List.mem_cons.mp h with h' | h'
          · exact absurd h'.symm hk
          · exact h'
        simp [dictPut, hk, dictPut_fst_of_mem rest k v hmem]

theorem mem_dictPut : ∀ (es : List (Option SAttr × Option DC))
    (k : Option SAttr) (v : Option DC) (e : Option SAttr × Option DC),
    e ∈ dictPut es k v → e = (k, v) ∨ e ∈ es
  | [], k, v, e, h => by
      simp only [dictPut, List.mem_singleton] at h
      exact Or.inl h
  | (k', v') :: rest, k, v, e, h => by
      by_cases hk : k' = k
      · simp only [dictPut, hk, if_true] at h
        rcases List.mem_cons.mp h with h' | h'
        · exact Or.inl h'
        · exact Or.inr (List.mem_cons.mpr (Or.inr h'))
      · simp only [dictPut, hk, if_false] at h
        rcases List.mem_cons.mp h with h' | h'
        · exact Or.inr (List.mem_cons.mpr (Or.inl h'))
        · rcases mem_dictPut rest k v e h' with h'' | h''
          · exact Or.inl h''
          · exact Or.inr (List.mem_cons.mpr (Or.inr h''))

theorem storeDC_list_set (parent child : DC) (es : List (Option DC)) (i : Nat)
    (h1 : parent.getSubloc = .list es) (h2 : child.getId = some (.num i))
    (hi : i < es.length) :
    storeDC parent child =
      (none, (parent.withSubloc (.list (es.set i (some child)))).getD parent) := by
  simp only [storeDC, h1, h2]
  split_ifs <;> first
  | (exfalso; omega)
  | simp [Int.toNat_natCast]

theorem storeDC_dict (parent child : DC) (es : List (Option SAttr × Option DC))
    (h1 : parent.getSubloc = .dict es) :
    storeDC parent child =
      (dcInvariantErr ((parent.withSubloc
          (.dict (dictPut es child.getId (some child)))).getD parent),
        (parent.withSubloc
          (.dict (dictPut es child.getId (some child)))).getD parent) := by
  simp [storeDC, h1]

theorem dcInvariantErr_none_of (parent' : DC)
    (es' : List (Option SAttr × Option DC)) (h : parent'.getSubloc = .dict es')
    (hstr : ∀ e ∈ es', isStrAttr e.1 = true)
    (hval : ∀ e ∈ es', e.2 = none ∨ ∃ c, e.2 = some c ∧ some c.kind = subKind parent'.kind) :
    dcInvariantErr parent' = none := by
  rw [dcInvariantErr, h]
  have h1 : es'.all (fun e => isStrAttr e.1) = true := List.all_eq_true.mpr hstr
  have h2 : es'.all (fun e => match e.2 with
      | none => true
      | some c => decide (some c.kind = subKind parent'.kind)) = true := by
    refine List.all_eq_true.mpr ?_
    intro e he
    rcases hval e he with h' | ⟨c, hc, hck⟩
    · simp [h']
    · simp [hc, hck]
  simp [h1, h2]

theorem listShape_of_kind (dc : DC) (h1 : isListKind dc.kind = true)
    (h2 : dc.hasSublocationDataclasses = true) : ∃ es, dc.getSubloc = .list es := by
  cases dc <;>
    simp_all [DC.kind, isListKind, DC.hasSublocationDataclasses, subKind, DC.getSubloc]

theorem dictShape_of_kind (dc : DC) (h1 : isDictKind dc.kind = true) :
    ∃ es, dc.getSubloc = .dict es := by
  cases dc <;> simp_all [DC.kind, isDictKind, DC.getSubloc]

theorem isListKind_false_of_dict (k : Kind) (h : isDictKind k = true) :
    isListKind k = false := by
  cases k <;> simp_all [isDictKind, isListKind]

theorem hasSub_of_dict (dc : DC) (h : isDictKind dc.kind = true) :
    dc.hasSublocationDataclasses = true := by
  cases dc <;> simp_all [DC.hasSublocationDataclasses, DC.kind, isDictKind, subKind]

theorem setSublocKeys_list (dc : DC) (es : List (Option DC))
    (ks : List (Option SAttr)) (h : dc.getSubloc = .list es) :
    (dc.setSublocKeys ks).getSubloc = .list (ks.map fun _ => none) := by
  cases dc <;> simp_all [DC.setSublocKeys, DC.getSubloc, DC.withSubloc]

theorem setSublocKeys_dict (dc : DC) (es : List (Option SAttr × Option DC))
    (ks : List (Option SAttr)) (h : dc.getSubloc = .dict es) :
    (dc.setSublocKeys ks).getSubloc = .dict (ks.map fun k => (k, none)) := by
  cases dc <;> simp_all [DC.setSublocKeys, DC.getSubloc, DC.withSubloc]

theorem setSublocKeys_kind (dc : DC) (ks : List (Option SAttr)) :
    (dc.setSublocKeys ks).kind = dc.kind := by
  cases dc <;> simp [DC.setSublocKeys, DC.getSubloc, DC.withSubloc, DC.kind]

theorem set_after_prefix {α : Type} : ∀ (p q : List α) (v : α),
    (p ++ q).set p.length v = p ++ q.set 0 v
  | [], _, _ => by simp
  | a :: t, q, v => by simp [List.set, set_after_prefix t q v]

theorem map_const_none_eq_replicate : ∀ l : List (Option SAttr),
    l.map (fun _ => (none : Option DC)) = List.replicate l.length none
  | [] => rfl
  | _ :: t => by simp [List.replicate, map_const_none_eq_replicate t]

/-! ### The deep-load loops (C7) -/

/-- Filling a list sublocation: starting from placeholders, the loop loads
child `j`, …, child `L - 1` and `store` places each at its own index, so
the final list holds the children in ascending numeric index order. -/
theorem diskLoadChildrenAux_list_fill
    (loadF : ScopedLocation → Except PErr DC) (scope : ScopedLocation)
    (children : Nat → DC) (L : Nat) :
    ∀ (n j : Nat) (acc : DC),
      j + n = L →
      acc.getSubloc = .list ((List.range j).map (fun i => some (children i)) ++
        List.replicate n none) →
      (∀ i, j ≤ i → i < L → loadF (scope.withId (.num i)) = .ok (children i)) →
      (∀ i, j ≤ i → i < L → (children i).getId = some (.num i)) →
      ∃ acc', diskLoadChildrenAux loadF acc
          ((List.range' j n).map (fun (i : Nat) => some (SAttr.num i))) scope = .ok acc' ∧
        acc'.getSubloc = .list ((List.range L).map (fun i => some (children i)))
  | 0, j, acc, hjl, hacc, _, _ => by
      refine ⟨acc, by simp [diskLoadChildrenAux, List.range'], ?_⟩
      rw [hacc]
      have : j = L := by omega
      subst this
      simp
  | n + 1, j, acc, hjl, hacc, hload, hid => by
      have hjL : j < L := by omega
      have hlen : ((List.range j).map (fun i => some (children i)) ++
          List.replicate (n + 1) (none : Option DC)).length = L := by
        simp
        omega
      have hstore := storeDC_list_set acc (children j) _ j hacc
        (hid j le_rfl hjL) (by rw [hlen]; exact hjL)
      have hset : (((List.range j).map (fun i => some (children i)) ++
            List.replicate (n + 1) (none : Option DC)).set j (some (children j))) =
          ((List.range (j + 1)).map (fun i => some (children i)) ++
            List.replicate n (none : Option DC)) := by
        have hplen : ((List.range j).map (fun i => some (children i))).length = j := by
          simp
        calc ((List.range j).map (fun i => some (children i)) ++
              List.replicate (n + 1) (none : Option DC)).set j (some (children j))
            = ((List.range j).map (fun i => some (children i)) ++
              List.replicate (n + 1) (none : Option DC)).set
                ((List.range j).map (fun i => some (children i))).length
                (some (children j)) := by rw [hplen]
          _ = (List.range j).map (fun i => some (children i)) ++
              (List.replicate (n + 1) (none : Option DC)).set 0 (some (children j)) :=
            set_after_prefix _ _ _
          _ = (List.range (j + 1)).map (fun i => some (children i)) ++
              List.replicate n (none : Option DC) := by
            simp [List.replicate_succ, List.set, List.range_succ]
      have hacc2 : ((acc.withSubloc (.list (((List.range j).map
            (fun i => some (children i)) ++
            List.replicate (n + 1) (none : Option DC)).set j
            (some (children j))))).getD acc).getSubloc =
          .list ((List.range (j + 1)).map (fun i => some (children i)) ++
            List.replicate n (none : Option DC)) := by
        rw [withSubloc_list_getSubloc acc _ _ hacc, hset]
      obtain ⟨acc', hrun, hsub'⟩ := diskLoadChildrenAux_list_fill loadF scope
        children L n (j + 1)
        ((acc.withSubloc (.list (((List.range j).map (fun i => some (children i)) ++
          List.replicate (n + 1) (none : Option DC)).set j
          (some (children j))))).getD acc)
        (by omega) hacc2
        (fun i hji hiL => hload i (by omega) hiL)
        (fun i hji hiL => hid i (by omega) hiL)
      refine ⟨acc', ?_, hsub'⟩
      rw [List.range'_succ, List.map_cons]
      simp only [diskLoadChildrenAux, hload j le_rfl hjL, hstore]
      exact hrun

/-- C7 (list half, assembled): a deep `_load_dc` of a list-mixin node
whose child records carry ids equal to their directory indices returns the
children in ascending numeric index order, one per directory. -/
theorem diskLoadDC_list_numeric (fuel : Nat) (st : DiskState)
    (scope : ScopedLocation) (dc : DC) (children : Nat → DC)
    (ks : List (Option SAttr))
    (hrec : recGet st.records (pathOfScope scope) = some (.valid dc))
    (hlist : isListKind dc.kind = true)
    (hsub : dc.hasSublocationDataclasses = true)
    (hks : parseKeys (strippedSubdirs st (pathOfScope scope)) = .ok ks)
    (hload : ∀ i, i < ks.length →
      diskLoadDC fuel st (scope.withId (.num i)) true = .ok (children i))
    (hid : ∀ i, i < ks.length → (children i).getId = some (.num i)) :
    ∃ dc', diskLoadDC (fuel + 1) st scope true = .ok dc' ∧
      dc'.getSubloc = .list ((List.range ks.length).map (fun i => some (children i))) := by
  obtain ⟨es, hes⟩ := listShape_of_kind dc hlist hsub
  have hdc1sub : (dc.setSublocKeys ks).getSubloc = .list (ks.map fun _ => none) :=
    setSublocKeys_list dc es ks hes
  have hkeys : (dc.setSublocKeys ks).sublocKeys =
      (List.range' 0 ks.length).map (fun (i : Nat) => some (SAttr.num i)) := by
    rw [DC.sublocKeys, hdc1sub]
    simp [Subloc.keys, List.range_eq_range']
  obtain ⟨acc', hrun, hsub'⟩ := diskLoadChildrenAux_list_fill
    (fun sc => diskLoadDC fuel st sc true) scope children ks.length ks.length 0
    (dc.setSublocKeys ks) (by omega)
    (by rw [hdc1sub, map_const_none_eq_replicate]; simp)
    (fun i _ hiL => hload i hiL) (fun i _ hiL => hid i hiL)
  refine ⟨acc', ?_, hsub'⟩
  show diskLoadDC (fuel + 1) st scope true = .ok acc'
  simp only [diskLoadDC, hrec, hsub, hlist, hks, if_true, hkeys]
  exact hrun

/-- Filling a dict sublocation: the loop loads each listed child and
`store` replaces the entry at the child's own key in place, so the final
key order is exactly the (lexically sorted) key list built from the
directory listing. -/
theorem diskLoadChildrenAux_dict_keys
    (loadF : ScopedLocation → Except PErr DC) (scope : ScopedLocation)
    (children : String → DC) (ck : Kind) :
    ∀ (names : List String) (acc : DC) (es : List (Option SAttr × Option DC)),
      acc.getSubloc = .dict es →
      subKind acc.kind = some ck →
      (∀ e ∈ es, isStrAttr e.1 = true) →
      (∀ e ∈ es, e.2 = none ∨ ∃ c, e.2 = some c ∧ c.kind = ck) →
      (∀ nm ∈ names, loadF (scope.withId (.str nm)) = .ok (children nm)) →
      (∀ nm ∈ names, (children nm).getId = some (.str nm)) →
      (∀ nm ∈ names, (children nm).kind = ck) →
      (∀ nm ∈ names, some (SAttr.str nm) ∈ es.map Prod.fst) →
      ∃ acc' es', diskLoadChildrenAux loadF acc
          (names.map (fun nm => some (.str nm))) scope = .ok acc' ∧
        acc'.getSubloc = .dict es' ∧ es'.map Prod.fst = es.map Prod.fst
  | [], acc, es, hacc, _, _, _, _, _, _, _ =>
      ⟨acc, es, by simp [diskLoadChildrenAux], hacc, rfl⟩
  | nm :: rest, acc, es, hacc, hsk, hstr, hval, hload, hid, hkind, hmem => by
      have hmemnm := hmem nm (List.mem_cons_self nm rest)
      have hput := storeDC_dict acc (children nm) es hacc
      rw [hid nm (List.mem_cons_self nm rest)] at hput
      have hacc2sub : ((acc.withSubloc (.dict (dictPut es (some (.str nm))
          (some (children nm))))).getD acc).getSubloc =
          .dict (dictPut es (some (.str nm)) (some (children nm))) :=
        withSubloc_dict_getSubloc acc es _ hacc
      have hkind2 : ((acc.withSubloc (.dict (dictPut es (some (.str nm))
          (some (children nm))))).getD acc).kind = acc.kind :=
        withSubloc_getD_kind acc _
      have hfst : (dictPut es (some (.str nm)) (some (children nm))).map Prod.fst =
          es.map Prod.fst := dictPut_fst_of_mem es _ _ hmemnm
      have hentry := mem_dictPut es (some (.str nm)) (some (children nm))
      have hstr2 : ∀ e ∈ dictPut es (some (.str nm)) (some (children nm)),
          isStrAttr e.1 = true := by
        intro e he
        rcases hentry e he with rfl | he'
        · simp [isStrAttr]
        · exact hstr e he'
      have hval2 : ∀ e ∈ dictPut es (some (.str nm)) (some (children nm)),
          e.2 = none ∨ ∃ c, e.2 = some c ∧ c.kind = ck := by
        intro e he
        rcases hentry e he with rfl | he'
        · exact Or.inr ⟨children nm, rfl, hkind nm (List.mem_cons_self nm rest)⟩
        · exact hval e he'
      have hinv : dcInvariantErr ((acc.withSubloc (.dict (dictPut es (some (.str nm))
          (some (children nm))))).getD acc) = none := by
        refine dcInvariantErr_none_of _ _ hacc2sub hstr2 ?_
        intro e he
        rcases hval2 e he with h0 | ⟨c, hc, hck⟩
        · exact Or.inl h0
        · refine Or.inr ⟨c, hc, ?_⟩
          rw [hkind2, hsk, hck]
      obtain ⟨acc', es', hrun, hsub', hfst'⟩ :=
        diskLoadChildrenAux_dict_keys loadF scope children ck rest
          ((acc.withSubloc (.dict (dictPut es (some (.str nm))
            (some (children nm))))).getD acc)
          (dictPut es (some (.str nm)) (some (children nm)))
          hacc2sub (by rw [hkind2]; exact hsk) hstr2 hval2
          (fun nm' h => hload nm' (List.mem_cons_of_mem nm h))
          (fun nm' h => hid nm' (List.mem_cons_of_mem nm h))
          (fun nm' h => hkind nm' (List.mem_cons_of_mem nm h))
          (fun nm' h => by
            rw [hfst]
            exact hmem nm' (List.mem_cons_of_mem nm h))
      refine ⟨acc', es', ?_, hsub', by rw [hfst', hfst]⟩
      simp only [List.map_cons, diskLoadChildrenAux,
        hload nm (List.mem_cons_self nm rest), hput, hinv]
      exact hrun

/-- C7 (dict half, assembled): a deep `_load_dc` of an ordered-dict node
returns its children keyed in the lexical (sorted) order of the
delimiter-stripped directory names. -/
theorem diskLoadDC_dict_lexical (fuel : Nat) (st : DiskState)
    (scope : ScopedLocation) (dc : DC) (children : String → DC) (ck : Kind)
    (hrec : recGet st.records (pathOfScope scope) = some (.valid dc))
    (hdict : isDictKind dc.kind = true)
    (hck : subKind dc.kind = some ck)
    (hload : ∀ nm ∈ strippedSubdirs st (pathOfScope scope),
      diskLoadDC fuel st (scope.withId (.str nm)) true = .ok (children nm))
    (hid : ∀ nm ∈ strippedSubdirs st (pathOfScope scope),
      (children nm).getId = some (.str nm))
    (hkind : ∀ nm ∈ strippedSubdirs st (pathOfScope scope),
      (children nm).kind = ck) :
    ∃ dc' es', diskLoadDC (fuel + 1) st scope true = .ok dc' ∧
      dc'.getSubloc = .dict es' ∧
      es'.map Prod.fst =
        (strippedSubdirs st (pathOfScope scope)).map (fun nm => some (.str nm)) := by
  obtain ⟨es, hes⟩ := dictShape_of_kind dc hdict
  have hsub : dc.hasSublocationDataclasses = true := hasSub_of_dict dc hdict
  have hnotlist : isListKind dc.kind = false := isListKind_false_of_dict dc.kind hdict
  have hdc1sub : (dc.setSublocKeys ((strippedSubdirs st
      (pathOfScope scope)).map (fun s => some (.str s)))).getSubloc =
      .dict (((strippedSubdirs st (pathOfScope scope)).map
        (fun s => some (SAttr.str s))).map (fun k => (k, none))) :=
    setSublocKeys_dict dc es _ hes
  have hdc1keys : (dc.setSublocKeys ((strippedSubdirs st
      (pathOfScope scope)).map (fun s => some (.str s)))).sublocKeys =
      (strippedSubdirs st (pathOfScope scope)).map (fun nm => some (SAttr.str nm)) := by
    rw [DC.sublocKeys, hdc1sub]
    simp [Subloc.keys, List.map_map]
  obtain ⟨acc', es', hrun, hsub', hfst'⟩ :=
    diskLoadChildrenAux_dict_keys (fun sc => diskLoadDC fuel st sc true) scope
      children ck (strippedSubdirs st (pathOfScope scope))
      (dc.setSublocKeys ((strippedSubdirs st
        (pathOfScope scope)).map (fun s => some (.str s))))
      (((strippedSubdirs st (pathOfScope scope)).map
        (fun s => some (SAttr.str s))).map (fun k => (k, none)))
      hdc1sub
      (by rw [setSublocKeys_kind]; exact hck)
      (by
        intro e he
        simp only [List.map_map, List.mem_map] at he
        obtain ⟨nm, _, rfl⟩ := he
        simp [isStrAttr])
      (by
        intro e he
        simp only [List.map_map, List.mem_map] at he
        obtain ⟨nm, _, rfl⟩ := he
        exact Or.inl rfl)
      hload hid hkind
      (by
        intro nm h
        simp only [List.map_map, List.map_map]
        refine List.mem_map.mpr ⟨nm, h, rfl⟩)
  refine ⟨acc', es', ?_, hsub', by rw [hfst']; simp [List.map_map]⟩
  show diskLoadDC (fuel + 1) st scope true = .ok acc'
  simp only [diskLoadDC, hrec, hsub, hnotlist, if_true, Bool.false_eq_true,
    if_false, hdc1keys]
  exact hrun

/-- C7: for the on-disk repository, a deep load of a node with a
list-keyed sublocation returns its children ordered by numeric index
(`store` places each child at its own index, so index 2 precedes index 10
even though `_load_dc_sublocation_keys` sorts the directory names as
strings before converting them to ints), while map-keyed sublocations come
back keyed in lexical string order: the stripped listing is
`sorted`-ordered (pairwise `≤` by code point) and a permutation of the raw
stripped names.  `set_sublocation_keys`, `empty` and
`has_sublocation_dataclasses` are spec-modelled (absent from src). -/
theorem disk_deep_load_child_order :
    (∀ (fuel : Nat) (st : DiskState) (scope : ScopedLocation) (dc : DC)
      (children : Nat → DC) (ks : List (Option SAttr)),
      recGet st.records (pathOfScope scope) = some (.valid dc) →
      isListKind dc.kind = true → dc.hasSublocationDataclasses = true →
      parseKeys (strippedSubdirs st (pathOfScope scope)) = .ok ks →
      (∀ i, i < ks.length →
        diskLoadDC fuel st (scope.withId (.num i)) true = .ok (children i)) →
      (∀ i, i < ks.length → (children i).getId = some (.num i)) →
      ∃ dc', diskLoadDC (fuel + 1) st scope true = .ok dc' ∧
        dc'.getSubloc = .list ((List.range ks.length).map (fun i => some (children i)))) ∧
    (∀ (fuel : Nat) (st : DiskState) (scope : ScopedLocation) (dc : DC)
      (children : String → DC) (ck : Kind),
      recGet st.records (pathOfScope scope) = some (.valid dc) →
      isDictKind dc.kind = true → subKind dc.kind = some ck →
      (∀ nm ∈ strippedSubdirs st (pathOfScope scope),
        diskLoadDC fuel st (scope.withId (.str nm)) true = .ok (children nm)) →
      (∀ nm ∈ strippedSubdirs st (pathOfScope scope),
        (children nm).getId = some (.str nm)) →
      (∀ nm ∈ strippedSubdirs st (pathOfScope scope),
        (children nm).kind = ck) →
      ∃ dc' es', diskLoadDC (fuel + 1) st scope true = .ok dc' ∧
        dc'.getSubloc = .dict es' ∧
        es'.map Prod.fst =
          (strippedSubdirs st (pathOfScope scope)).map (fun nm => some (.str nm))) ∧
    (∀ (st : DiskState) (folder : List String),
      (strippedSubdirs st folder).Pairwise strLeB ∧
      (strippedSubdirs st folder).Perm
        ((listdirAll st folder).filterMap stripDelim?)) :=
  ⟨diskLoadDC_list_numeric, diskLoadDC_dict_lexical,
   fun _ _ => ⟨sortStrings_pairwise _, sortStrings_perm _⟩⟩

/-- Witness for C7: a client with eleven round directories `_0` … `_10`
deep-loads with the rounds in numeric order 0, 1, 2, …, 10, and a split
with metric directories listed on disk as `_f1`, `_acc` deep-loads with
keys in lexical order `acc`, `f1`. -/
theorem disk_deep_load_child_order_witness :
    (∃ dc', diskLoadDC (7 + 1) c7ListState c7Scope true = .ok dc' ∧
      dc'.getSubloc = .list ((List.range 11).map (fun i => some (c7Child i)))) ∧
    (∃ dc' es', diskLoadDC (7 + 1) c7DictState c7DictScope true = .ok dc' ∧
      dc'.getSubloc = .dict es' ∧
      es'.map Prod.fst = [some (.str "acc"), some (.str "f1")]) ∧
    (strippedSubdirs c7ListState (pathOfScope c7Scope)).Pairwise strLeB := by
  refine ⟨?_, ?_, (disk_deep_load_child_order.2.2 c7ListState (pathOfScope c7Scope)).1⟩
  · exact disk_deep_load_child_order.1 7 c7ListState c7Scope
      (.client (some (.str "c")) [] none) c7Child
      [some (.num 0), some (.num 1), some (.num 10), some (.num 2), some (.num 3),
       some (.num 4), some (.num 5), some (.num 6), some (.num 7), some (.num 8),
       some (.num 9)]
      rfl rfl rfl rfl
      (by
        intro i hi
        have hi11 : i < 11 := by simpa using hi
        interval_cases i <;> exact rfl)
      (by
        intro i hi
        have hi11 : i < 11 := by simpa using hi
        interval_cases i <;> exact rfl)
  · exact disk_deep_load_child_order.2.1 7 c7DictState c7DictScope
      (.tsplit (some (.num 0)) { hyperparams := .samples [] } []) c7Metric .metric
      rfl rfl rfl
      (by
        intro nm h
        rw [show strippedSubdirs c7DictState (pathOfScope c7DictScope) =
          ["acc", "f1"] from rfl] at h
        fin_cases h <;> exact rfl)
      (by
        intro nm h
        rw [show strippedSubdirs c7DictState (pathOfScope c7DictScope) =
          ["acc", "f1"] from rfl] at h
        fin_cases h <;> exact rfl)
      (by
        intro nm h
        rw [show strippedSubdirs c7DictState (pathOfScope c7DictScope) =
          ["acc", "f1"] from rfl] at h
        fin_cases h <;> exact rfl)

/-! ### Well-formed walk lemmas (C1) -/

theorem WFAt_kind {k : Kind} {dc : DC} (h : WFAt k dc) : dc.kind = k := by
  cases h with
  | intro _ _ hk _ _ => exact hk

theorem WFAt_strKeys {k : Kind} {dc : DC} (h : WFAt k dc) :
    ∀ e ∈ dictEntriesOf dc, isStrAttr e.1 = true := by
  cases h with
  | intro _ _ _ hstr _ => exact hstr

theorem WFAt_children {k sk : Kind} {dc : DC} (h : WFAt k dc)
    (hsk : subKind k = some sk) :
    ∀ c ∈ dc.getSubloc.childrenPresent, WFAt sk c := by
  cases h with
  | intro _ _ _ _ hch => exact hch sk hsk

theorem subKind_kindAt (t : Nat) (h : t ≤ 5) :
    subKind (kindAt t) = some (kindAt (t + 1)) := by
  interval_cases t <;> rfl

theorem idIdx_kindAt (t : Nat) (h : t ≤ 5) :
    idIdx (kindAt (t + 1)) = some t := by
  interval_cases t <;> rfl

theorem kind_eq_kindAt_of_idIdx (k : Kind) (d : Nat) (h : idIdx k = some d) :
    k = kindAt (d + 1) := by
  cases k <;> simp_all [idIdx] <;> subst h <;> rfl

theorem idIdx_le_five (k : Kind) (d : Nat) (h : idIdx k = some d) : d ≤ 5 := by
  cases k <;> simp_all [idIdx] <;> omega

theorem dictGet_mem : ∀ (es : List (Option SAttr × Option DC))
    (k : Option SAttr) (v : Option DC), dictGet es k = some v → (k, v) ∈ es
  | [], _, _, h => by simp [dictGet] at h
  | (k', v') :: rest, k, v, h => by
      by_cases hk : k' = k
      · simp only [dictGet, hk, if_true, Option.some_inj] at h
        rw [← hk, ← h]
        exact List.mem_cons_self _ _
      · simp only [dictGet, hk, if_false] at h
        exact List.mem_cons_of_mem _ (dictGet_mem rest k v h)

theorem dictGet_dictPut : ∀ (es : List (Option SAttr × Option DC))
    (k : Option SAttr) (v : Option DC), dictGet (dictPut es k v) k = some v
  | [], k, v => by simp [dictPut, dictGet]
  | (k', v') :: rest, k, v => by
      by_cases hk : k' = k
      · simp [dictPut, dictGet, hk]
      · simp [dictPut, dictGet, hk, dictGet_dictPut rest k v]

theorem fetch_children_mem (sl : Subloc) (a : SAttr) (c : DC)
    (h : sl.fetch (some a) = some (some c)) : c ∈ sl.childrenPresent := by
  cases sl with
  | dict es =>
    simp only [Subloc.fetch] at h
    have := dictGet_mem es (some a) (some c) h
    simp only [Subloc.childrenPresent, List.mem_filterMap]
    exact ⟨(some a, some c), this, rfl⟩
  | list es =>
    cases a with
    | str _ => simp [Subloc.fetch] at h
    | num j =>
      simp only [Subloc.fetch] at h
      split_ifs at h
      simp only [Subloc.childrenPresent, List.mem_filterMap]
      exact ⟨some c, List.getElem?_mem h, rfl⟩
  | values vs => simp [Subloc.fetch] at h

theorem mem_listKeys (es : List (Option DC)) (a : SAttr)
    (h : some a ∈ (Subloc.list es).keys) :
    ∃ j : Nat, j < es.length ∧ a = .num j := by
  simp only [Subloc.keys, List.mem_map, List.mem_range] at h
  obtain ⟨j, hj, hja⟩ := h
  exact ⟨j, hj, (Option.some_inj.mp hja).symm⟩

theorem mem_listKeys_of_lt (es : List (Option DC)) (j : Nat)
    (h : j < es.length) : some (SAttr.num j) ∈ (Subloc.list es).keys := by
  simp only [Subloc.keys, List.mem_map, List.mem_range]
  exact ⟨j, h, rfl⟩

theorem dcGetF_stop (g : Nat) (M : DC) (s : ScopedLocation)
    (h : ∀ sk, subKind M.kind = some sk → s.get sk = none) :
    dcGetF (g + 1) M s = .ok M := by
  cases hsk : subKind M.kind with
  | none => simp [dcGetF, hsk]
  | some sk => simp [dcGetF, hsk, h sk hsk]

theorem withSubloc_some_props (dc : DC) (sl : Subloc) (dc' : DC)
    (h : dc.withSubloc sl = some dc') :
    dc'.getSubloc = sl ∧ dc'.kind = dc.kind ∧ dc'.getId = dc.getId := by
  cases dc <;> cases sl <;>
    simp_all [DC.withSubloc, DC.getSubloc, DC.kind, DC.getId] <;>
    (subst h; simp [DC.getSubloc, DC.kind, DC.getId])

theorem withSubloc_getD_getId (dc : DC) (sl : Subloc) :
    ((dc.withSubloc sl).getD dc).getId = dc.getId := by
  cases dc <;> cases sl <;> simp [DC.withSubloc, DC.getId]

theorem setItem_concat (k : Kind) (d : Nat) (hd : idIdx k = some d)
    (l' : List SAttr) (hl : l'.length = d) (i : SAttr) :
    (ScopedLocation.ofList l').setItem k (some i) =
      .ok (ScopedLocation.ofList (l' ++ [i])) := by
  have h6 : l'.length ≤ 6 := by
    have := idIdx_le_five k d hd
    omega
  cases k
  case root => simp [idIdx] at hd
  all_goals
    simp only [idIdx, Option.some.injEq] at hd
    subst hd
    rcases l' with _ | ⟨a, _ | ⟨b, _ | ⟨c, _ | ⟨e, _ | ⟨f, _ | ⟨g, t⟩⟩⟩⟩⟩⟩ <;>
      (simp_all; try rfl)

theorem dictEntriesOf_eq (N : DC) (es : List (Option SAttr × Option DC))
    (h : N.getSubloc = .dict es) : dictEntriesOf N = es := by
  simp [dictEntriesOf, h]

theorem withSubloc_put_getSubloc (N : DC) (k : Option SAttr) (v : Option DC) :
    ((N.withSubloc (N.getSubloc.put k v)).getD N).getSubloc =
      N.getSubloc.put k v := by
  cases N <;> rcases k with _ | a <;> (try cases a) <;>
    simp [DC.getSubloc, Subloc.put, DC.withSubloc]

theorem put_keys (sl : Subloc) (a : SAttr) (v : Option DC) (C : DC)
    (hmem : some a ∈ sl.keys) (hfetch : sl.fetch (some a) = some (some C)) :
    (sl.put (some a) v).keys = sl.keys := by
  cases sl with
  | dict es =>
    simp only [Subloc.put, Subloc.keys] at *
    exact dictPut_fst_of_mem es (some a) v hmem
  | list es =>
    cases a with
    | str _ => simp [Subloc.fetch] at hfetch
    | num j =>
      simp only [Subloc.put, Subloc.keys]
      split_ifs <;> simp [List.length_set]
  | values vs => simp [Subloc.fetch] at hfetch

theorem put_fetch (sl : Subloc) (a : SAttr) (C C' : DC)
    (hfetch : sl.fetch (some a) = some (some C)) :
    (sl.put (some a) (some C')).fetch (some a) = some (some C') := by
  cases sl with
  | dict es =>
    simp only [Subloc.put, Subloc.fetch]
    exact dictGet_dictPut es (some a) (some C')
  | list es =>
    cases a with
    | str _ => simp [Subloc.fetch] at hfetch
    | num j =>
      simp only [Subloc.fetch, Subloc.put] at *
      split_ifs at hfetch ⊢ with h0
      have hlt : j.toNat < es.length := by
        by_contra hge
        rw [List.getElem?_eq_none (by omega)] at hfetch
        simp at hfetch
      exact List.getElem?_set_eq_of_lt (some C') hlt
  | values vs => simp [Subloc.fetch] at hfetch

theorem put_preserves (N : DC) (a : SAttr) (C C' : DC)
    (hmem : some a ∈ N.sublocKeys)
    (hfetch : N.getSubloc.fetch (some a) = some (some C)) :
    ((N.withSubloc (N.getSubloc.put (some a) (some C'))).getD N).kind = N.kind ∧
    ((N.withSubloc (N.getSubloc.put (some a) (some C'))).getD N).sublocKeys =
      N.sublocKeys ∧
    ((N.withSubloc (N.getSubloc.put (some a) (some C'))).getD N).getSubloc.fetch
      (some a) = some (some C') := by
  refine ⟨withSubloc_getD_kind N _, ?_, ?_⟩
  · rw [DC.sublocKeys, withSubloc_put_getSubloc]
    exact put_keys N.getSubloc a (some C') C hmem hfetch
  · rw [withSubloc_put_getSubloc]
    exact put_fetch N.getSubloc a C C' hfetch

theorem store_at_parent (N dc' Z₀ : DC) (i : SAttr) (ck : Kind)
    (hid : dc'.getId = some i)
    (hmem : some i ∈ N.sublocKeys)
    (hfetch : N.getSubloc.fetch (some i) = some (some Z₀))
    (hsk : subKind N.kind = some ck)
    (hkind' : dc'.kind = ck)
    (hstr : ∀ e ∈ dictEntriesOf N, isStrAttr e.1 = true)
    (hchk : ∀ c ∈ N.getSubloc.childrenPresent, c.kind = ck) :
    ∃ N₁, storeDC N dc' = (none, N₁) ∧ N₁.kind = N.kind ∧
      N₁.sublocKeys = N.sublocKeys ∧
      N₁.getSubloc.fetch (some i) = some (some dc') := by
  cases hNS : N.getSubloc with
  | dict es =>
    have hput := storeDC_dict N dc' es hNS
    rw [hid] at hput
    have hsub := withSubloc_dict_getSubloc N es
      (dictPut es (some i) (some dc')) hNS
    have hkind₁ := withSubloc_getD_kind N
      (Subloc.dict (dictPut es (some i) (some dc')))
    have hfetch' : dictGet es (some i) = some (some Z₀) := by
      rw [hNS] at hfetch
      exact hfetch
    have hstr' : ∀ e ∈ es, isStrAttr e.1 = true := by
      rw [← dictEntriesOf_eq N es hNS]
      exact hstr
    have hinv : dcInvariantErr ((N.withSubloc
        (.dict (dictPut es (some i) (some dc')))).getD N) = none := by
      refine dcInvariantErr_none_of _ _ hsub ?_ ?_
      · intro e he
        rcases mem_dictPut es (some i) (some dc') e he with rfl | he'
        · exact hstr' (some i, some Z₀) (dictGet_mem es (some i) (some Z₀) hfetch')
        · exact hstr' e he'
      · intro e he
        rcases mem_dictPut es (some i) (some dc') e he with rfl | he'
        · refine Or.inr ⟨dc', rfl, ?_⟩
          rw [hkind₁, hsk, hkind']
        · rcases he2 : e.2 with _ | c
          · exact Or.inl rfl
          · refine Or.inr ⟨c, rfl, ?_⟩
            rw [hkind₁, hsk]
            have hcmem : c ∈ N.getSubloc.childrenPresent := by
              rw [hNS]
              simp only [Subloc.childrenPresent, List.mem_filterMap]
              exact ⟨e, he', he2⟩
            rw [hchk c hcmem]
    refine ⟨(N.withSubloc (.dict (dictPut es (some i) (some dc')))).getD N,
      by rw [hput, hinv], hkind₁, ?_, ?_⟩
    · rw [DC.sublocKeys, hsub, DC.sublocKeys, hNS]
      simp only [Subloc.keys]
      refine dictPut_fst_of_mem es (some i) (some dc') ?_
      rw [DC.sublocKeys, hNS] at hmem
      exact hmem
    · rw [hsub]
      simp only [Subloc.fetch]
      exact dictGet_dictPut es (some i) (some dc')
  | list es =>
    rw [DC.sublocKeys, hNS] at hmem
    obtain ⟨j, hj, rfl⟩ := mem_listKeys es i hmem
    have hstore := storeDC_list_set N dc' es j hNS hid hj
    have hsub := withSubloc_list_getSubloc N es (es.set j (some dc')) hNS
    refine ⟨(N.withSubloc (.list (es.set j (some dc')))).getD N, hstore,
      withSubloc_getD_kind N _, ?_, ?_⟩
    · rw [DC.sublocKeys, hsub, DC.sublocKeys, hNS]
      simp [Subloc.keys, List.length_set]
    · rw [hsub]
      simp only [Subloc.fetch]
      rw [if_pos (by omega)]
      simpa using List.getElem?_set_eq_of_lt (some dc') (by simpa using hj)
  | values vs =>
    rw [hNS] at hfetch
    simp [Subloc.fetch] at hfetch

theorem dcGetF_ok_inv (g : Nat) (N Z : DC) (s : ScopedLocation) (sk : Kind)
    (a : SAttr) (hsk : subKind N.kind = some sk) (hget : s.get sk = some a)
    (hZ : dcGetF (g + 1) N s = .ok Z) :
    ∃ C, some a ∈ N.sublocKeys ∧ N.getSubloc.fetch (some a) = some (some C) ∧
      dcGetF g C s = .ok Z := by
  simp only [dcGetF, hsk, hget] at hZ
  by_cases hmem : some a ∈ N.sublocKeys
  · rw [if_pos hmem] at hZ
    cases hfetch : N.getSubloc.fetch (some a) with
    | none => rw [hfetch] at hZ; simp at hZ
    | some c =>
      cases c with
      | none => rw [hfetch] at hZ; simp at hZ
      | some C =>
        rw [hfetch] at hZ
        exact ⟨C, hmem, rfl, hZ⟩
  · rw [if_neg hmem] at hZ
    simp at hZ

theorem dcGetF_step (g : Nat) (M C : DC) (s : ScopedLocation) (sk : Kind)
    (a : SAttr) (hsk : subKind M.kind = some sk) (hget : s.get sk = some a)
    (hmem : some a ∈ M.sublocKeys)
    (hfetch : M.getSubloc.fetch (some a) = some (some C)) :
    dcGetF (g + 1) M s = dcGetF g C s := by
  simp only [dcGetF, hsk, hget, hmem, if_true, hfetch]

theorem updateAtF_stop (g : Nat) (M : DC) (s : ScopedLocation)
    (f : DC → Option PErr × DC)
    (h : ∀ sk, subKind M.kind = some sk → s.get sk = none) :
    updateAtF (g + 1) M s f = f M := by
  cases hsk : subKind M.kind with
  | none => simp only [updateAtF, hsk]
  | some sk => simp only [updateAtF, hsk, h sk hsk]

theorem updateAtF_step (g : Nat) (M C : DC) (s : ScopedLocation)
    (f : DC → Option PErr × DC) (sk : Kind) (a : SAttr)
    (hsk : subKind M.kind = some sk) (hget : s.get sk = some a)
    (hmem : some a ∈ M.sublocKeys)
    (hfetch : M.getSubloc.fetch (some a) = some (some C)) :
    updateAtF (g + 1) M s f = ((updateAtF g C s f).1,
      (M.withSubloc (M.getSubloc.put (some a)
        (some (updateAtF g C s f).2))).getD M) := by
  simp only [updateAtF, hsk, hget, hmem, if_true, hfetch]

theorem scope_get_beyond (l : List SAttr) (k : Kind) (u : Nat)
    (hu : idIdx k = some u) (hge : l.length ≤ u) :
    (ScopedLocation.ofList l).get k = none := by
  rw [get_ofList _ _ _ hu]
  exact List.getElem?_eq_none hge

/-- After the store, the full scope stops exactly at the freshly stored
node: its sub-coordinate lies beyond the scope's depth. -/
theorem dcGetF_stop_at_saved (g : Nat) (dc' : DC) (l' : List SAttr) (i : SAttr)
    (hl5 : l'.length ≤ 5) (hk' : dc'.kind = kindAt (l'.length + 1)) :
    dcGetF (g + 1) dc' (ScopedLocation.ofList (l' ++ [i])) = .ok dc' := by
  refine dcGetF_stop g dc' _ ?_
  intro sk hsk'
  rw [hk'] at hsk'
  by_cases hd : l'.length + 1 ≤ 5
  · rw [subKind_kindAt _ hd] at hsk'
    injection hsk' with h
    rw [← h]
    exact scope_get_beyond (l' ++ [i]) _ (l'.length + 1)
      (idIdx_kindAt _ hd) (by simp)
  · have h5 : l'.length = 5 := by omega
    rw [h5] at hsk'
    simp [kindAt, subKind] at hsk'

/-- The core frame argument for C1: in a well-formed tree, the parent walk
of `save` (along the popped scope) runs in lockstep with the lookup walk
(along the full scope); the store at the parent then succeeds, replacing
exactly the entry at the saved node's own coordinate, and the full scope
afterwards resolves to the saved node. -/
theorem updateStore_walk : ∀ (fuel t : Nat) (N Z dc' : DC)
    (l' : List SAttr) (i : SAttr),
    WFAt (kindAt t) N →
    t ≤ l'.length → l'.length ≤ 5 →
    dc'.kind = kindAt (l'.length + 1) →
    dc'.getId = some i →
    dcGetF fuel N (ScopedLocation.ofList (l' ++ [i])) = .ok Z →
    ∃ N', updateAtF fuel N (ScopedLocation.ofList l')
        (fun p => storeDC p dc') = (none, N') ∧
      dcGetF fuel N' (ScopedLocation.ofList (l' ++ [i])) = .ok dc'
  | 0, _, _, _, _, _, _, _, _, _, _, _, hZ => by simp [dcGetF] at hZ
  | fuel + 1, t, N, Z, dc', l', i, hWF, htl, hl5, hk', hid', hZ => by
    have ht5 : t ≤ 5 := le_trans htl hl5
    have hNk : N.kind = kindAt t := WFAt_kind hWF
    have hsk : subKind N.kind = some (kindAt (t + 1)) := by
      rw [hNk]
      exact subKind_kindAt t ht5
    have hidx : idIdx (kindAt (t + 1)) = some t := idIdx_kindAt t ht5
    by_cases htd : t = l'.length
    · subst htd
      have hgetS : (ScopedLocation.ofList (l' ++ [i])).get
          (kindAt (l'.length + 1)) = some i := by
        rw [get_ofList _ _ _ hidx]
        exact List.getElem?_concat_length l' i
      have hgetP : (ScopedLocation.ofList l').get (kindAt (l'.length + 1)) = none :=
        scope_get_beyond l' _ l'.length hidx le_rfl
      obtain ⟨Z₀, hmem, hfetch, hrec₀⟩ := dcGetF_ok_inv fuel N Z _ _ i hsk hgetS hZ
      have hchk : ∀ c ∈ N.getSubloc.childrenPresent,
          c.kind = kindAt (l'.length + 1) := by
        intro c hc
        exact WFAt_kind (WFAt_children hWF (by rw [← hNk]; exact hsk) c hc)
      obtain ⟨N₁, hstore, hk₁, hkeys₁, hfetch₁⟩ := store_at_parent N dc' Z₀ i
        (kindAt (l'.length + 1)) hid' hmem hfetch hsk hk' (WFAt_strKeys hWF) hchk
      refine ⟨N₁, ?_, ?_⟩
      · rw [updateAtF_stop fuel N _ _ (fun sk hsk' => by
          rw [hsk] at hsk'
          injection hsk' with h
          rw [← h]
          exact hgetP)]
        exact hstore
      · rw [dcGetF_step fuel N₁ dc' _ (kindAt (l'.length + 1)) i
          (by rw [hk₁]; exact hsk) hgetS (by rw [hkeys₁]; exact hmem) hfetch₁]
        cases fuel with
        | zero => simp [dcGetF] at hrec₀
        | succ g => exact dcGetF_stop_at_saved g dc' l' i hl5 hk'
    · have htd' : t < l'.length := lt_of_le_of_ne htl htd
      obtain ⟨a, ha⟩ : ∃ a, l'[t]? = some a :=
        ⟨l'.get ⟨t, htd'⟩, List.getElem?_eq_getElem htd'⟩
      have hgetS : (ScopedLocation.ofList (l' ++ [i])).get (kindAt (t + 1)) =
          some a := by
        rw [get_ofList _ _ _ hidx, List.getElem?_append_left htd', ha]
      have hgetP : (ScopedLocation.ofList l').get (kindAt (t + 1)) = some a := by
        rw [get_ofList _ _ _ hidx, ha]
      obtain ⟨C, hmem, hfetch, hrec⟩ := dcGetF_ok_inv fuel N Z _ _ a hsk hgetS hZ
      have hWFC : WFAt (kindAt (t + 1)) C :=
        WFAt_children hWF (by rw [← hNk]; exact hsk) C
          (fetch_children_mem _ a C hfetch)
      obtain ⟨C', hupdC, hafterC⟩ := updateStore_walk fuel (t + 1) C Z dc' l' i
        hWFC (by omega) hl5 hk' hid' hrec
      have hstep := updateAtF_step fuel N C _ (fun p => storeDC p dc')
        (kindAt (t + 1)) a hsk hgetP hmem hfetch
      rw [hupdC] at hstep
      obtain ⟨hk₁, hkeys₁, hfetch₁⟩ := put_preserves N a C C' hmem hfetch
      refine ⟨(N.withSubloc (N.getSubloc.put (some a) (some C'))).getD N,
        hstep, ?_⟩
      rw [dcGetF_step fuel _ C' _ (kindAt (t + 1)) a (by rw [hk₁]; exact hsk)
        hgetS (by rw [hkeys₁]; exact hmem) hfetch₁]
      exact hafterC

theorem withDC_ne_root (s : ScopedLocation) (dc : DC) (h : dc.kind ≠ .root) :
    s.withDC dc = s.setItem dc.kind dc.getId := by
  cases hdk : dc.kind <;> simp_all [ScopedLocation.withDC]

theorem mem_recPut_fst : ∀ (rs : List (List String × FileRec))
    (p q' : List String) (r : FileRec),
    p ∈ rs.map Prod.fst → p ∈ (recPut rs q' r).map Prod.fst
  | [], p, q', r, h => by simp at h
  | (p₀, r₀) :: rest, p, q', r, h => by
      by_cases hq : p₀ = q'
      · subst hq
        simp only [recPut, if_pos rfl, List.map_cons] at h ⊢
        rcases List.mem_cons.mp h with rfl | h'
        · exact List.mem_cons_self _ _
        · exact List.mem_cons_of_mem _ h'
      · simp only [recPut, if_neg hq, List.map_cons] at h ⊢
        rcases List.mem_cons.mp h with rfl | h'
        · exact List.mem_cons_self _ _
        · exact List.mem_cons_of_mem _ (mem_recPut_fst rest p q' r h')

theorem bindE_ok {α β : Type} (a : α) (f : α → Except PErr β) :
    (Except.ok a >>= f : Except PErr β) = f a := rfl

theorem dcGetF_empty (X : DC) : dcGetF dcFuel X {} = .ok X := by
  show dcGetF (7 + 1) X {} = .ok X
  cases X <;> rfl

theorem keysUnder_ok {root Z : DC} {s : ScopedLocation}
    (h : dcGetF dcFuel root s = .ok Z) :
    keysUnder root s = descPathsF dcFuel Z := by
  rw [keysUnder, h]

theorem keysUnder_err {root : DC} {s : ScopedLocation} {e : PErr}
    (h : dcGetF dcFuel root s = .error e) :
    keysUnder root s = [] := by
  rw [keysUnder, h]

theorem WFAt_splitDC0 : WFAt Kind.tsplit splitDC0 := by
  refine WFAt.intro _ _ rfl (by decide) ?_
  intro sk hsk c hc
  exact absurd hc (List.not_mem_nil c)

theorem WFAt_trialDC0 : WFAt Kind.trial trialDC0 := by
  refine WFAt.intro _ _ rfl (by decide) ?_
  intro sk hsk c hc
  obtain rfl : Kind.tsplit = sk := Option.some.inj hsk
  have hc' : c ∈ [splitDC0] := hc
  obtain rfl := List.mem_singleton.mp hc'
  exact WFAt_splitDC0

theorem WF_populatedRootDC : WF populatedRootDC := by
  refine WFAt.intro _ _ rfl (by decide) ?_
  intro sk hsk c hc
  obtain rfl : Kind.project = sk := Option.some.inj hsk
  have hc' : c ∈ [DC.project (some dpAttr)
    [(some dclAttr, some (.client (some dclAttr) [some roundDC0] none))]] := hc
  obtain rfl := List.mem_singleton.mp hc'
  refine WFAt.intro _ _ rfl (by decide) ?_
  intro sk hsk c hc
  obtain rfl : Kind.client = sk := Option.some.inj hsk
  have hc' : c ∈ [DC.client (some dclAttr) [some roundDC0] none] := hc
  obtain rfl := List.mem_singleton.mp hc'
  refine WFAt.intro _ _ rfl (by decide) ?_
  intro sk hsk c hc
  obtain rfl : Kind.rnd = sk := Option.some.inj hsk
  have hc' : c ∈ [roundDC0] := hc
  obtain rfl := List.mem_singleton.mp hc'
  refine WFAt.intro _ _ rfl (by decide) ?_
  intro sk hsk c hc
  obtain rfl : Kind.trial = sk := Option.some.inj hsk
  have hc' : c ∈ [trialDC0] := hc
  obtain rfl := List.mem_singleton.mp hc'
  exact WFAt_trialDC0

/-- C1: for every well-formed repository state, every node and every scope
valid for the node's type, a `deep=False` save never reduces the set of
descendant key paths visible under that scope — the save deep-loads the
prior state at the scope and reattaches its sublocation to the node before
overwriting, so every descendant key that resolved before the call still
resolves after it (error paths leave the root untouched).  On disk, a
`deep=False` `_save_dc` writes only the record at the saved scope's
folder, so the set of existing record paths never shrinks. -/
theorem save_preserves_descendant_keys :
    (∀ (root dc : DC) (s : ScopedLocation),
      WF root → validForKind s dc.kind →
      ∀ p ∈ keysUnder root s, p ∈ keysUnder (vanillaSave root dc s false).2 s) ∧
    (∀ (st : DiskState) (dc : DC) (s : ScopedLocation) (q : List String),
      q ∈ recordPaths st → q ∈ recordPaths (diskSave st dc s false).2) := by
  constructor
  · intro root dc s hWF hvalid p hp
    by_cases hroot : dc.kind = Kind.root
    · simp only [validForKind, hroot, idIdx] at hvalid
      subst hvalid
      cases hws : dc.withSubloc root.getSubloc with
      | none =>
        have hres : vanillaSave root dc {} false = (some .valueError, root) := by
          simp [vanillaSave, vanillaSaveCore, hroot, ScopedLocation.get,
            ScopedLocation.sliceAt, ScopedLocation.asList, ScopedLocation.fieldsList,
            ScopedLocation.takeSome, idIdx, sublocIdx, hws]
        rw [hres]
        exact hp
      | some dc' =>
        obtain ⟨hsub', hkind', hid'⟩ := withSubloc_some_props dc root.getSubloc dc' hws
        have hres : vanillaSave root dc {} false = (none, dc') := by
          simp [vanillaSave, vanillaSaveCore, hroot, ScopedLocation.get,
            ScopedLocation.sliceAt, ScopedLocation.asList, ScopedLocation.fieldsList,
            ScopedLocation.takeSome, idIdx, sublocIdx, hws]
        rw [hres, keysUnder_ok (dcGetF_empty dc')]
        have hdp : descPathsF dcFuel dc' = descPathsF dcFuel root := by
          show descPathsF (7 + 1) dc' = descPathsF (7 + 1) root
          rw [descPathsF, descPathsF, hsub']
        rw [hdp]
        rw [keysUnder_ok (dcGetF_empty root)] at hp
        exact hp
    · obtain ⟨d, hd⟩ := idIdx_isSome_of_ne_root dc.kind hroot
      simp only [validForKind, hd] at hvalid
      obtain ⟨hs, hlen⟩ := hvalid
      rcases List.eq_nil_or_concat s.asList with hnil | ⟨l', i, hla⟩
      · rw [hnil] at hlen
        simp at hlen
      rw [List.concat_eq_append] at hla
      have hl' : l'.length = d := by
        rw [hla] at hlen
        simp at hlen
        omega
      have hd5 : d ≤ 5 := idIdx_le_five dc.kind d hd
      have hsofl : ScopedLocation.ofList (l' ++ [i]) = s := by
        rw [← hla, hs]
      have hget : s.get dc.kind = some i := by
        rw [← hsofl, get_ofList _ _ _ hd, ← hl']
        exact List.getElem?_concat_length l' i
      by_cases hid : dc.getId = some i
      · have hslice : s.sliceAt dc.kind = s := by
          rw [sliceAt_eq s dc.kind d hd, List.take_of_length_le (by omega), hs]
        have hpop : s.pop = (some i, ScopedLocation.ofList l') := by
          rw [← hsofl]
          exact pop_ofList_append l' i (by omega)
        cases hZ : dcGetF dcFuel root s with
        | error e =>
          rw [keysUnder_err hZ] at hp
          simp at hp
        | ok Z =>
          rw [keysUnder_ok hZ] at hp
          have hwdc : (ScopedLocation.ofList l').withDC dc = .ok s := by
            rw [withDC_ne_root _ dc hroot, hid, setItem_concat dc.kind d hd l' hl' i,
              hsofl]
          have hload : vanillaLoad root s true = .ok Z := by
            simp [vanillaLoad, hZ]
          cases hdc' : dc.withSubloc Z.getSubloc with
          | none =>
            have hres : vanillaSave root dc s false = (some .valueError, root) := by
              simp only [vanillaSave, hget]
              rw [if_neg (by simp [hid])]
              simp only [vanillaSaveCore, hslice, hpop, Bool.false_eq_true,
                if_false, hroot, hwdc, bindE_ok, hload, hdc']
            rw [hres, keysUnder_ok hZ]
            exact hp
          | some dc' =>
            obtain ⟨hsub', hkind', hid'⟩ := withSubloc_some_props dc Z.getSubloc dc' hdc'
            have hk'' : dc'.kind = kindAt (l'.length + 1) := by
              rw [hkind', hl']
              exact kind_eq_kindAt_of_idIdx dc.kind d hd
            have hid'' : dc'.getId = some i := by
              rw [hid']
              exact hid
            have hZ' : dcGetF dcFuel root (ScopedLocation.ofList (l' ++ [i])) = .ok Z := by
              rw [hsofl]
              exact hZ
            obtain ⟨N', hupd, hafter⟩ := updateStore_walk dcFuel 0 root Z dc' l' i
              hWF (by omega) (by omega) hk'' hid'' hZ'
            have hres : vanillaSave root dc s false = (none, N') := by
              simp only [vanillaSave, hget]
              rw [if_neg (by simp [hid])]
              simp only [vanillaSaveCore, hslice, hpop, Bool.false_eq_true,
                if_false, hroot, hwdc, bindE_ok, hload, hdc']
              exact hupd
            rw [hres, ← hsofl, keysUnder_ok hafter]
            have hdp : descPathsF dcFuel dc' = descPathsF dcFuel Z := by
              show descPathsF (7 + 1) dc' = descPathsF (7 + 1) Z
              rw [descPathsF, descPathsF, hsub']
            rw [hdp]
            exact hp
      · have hres : vanillaSave root dc s false = (some .valueError, root) := by
          simp only [vanillaSave, hget]
          rw [if_pos (by simp [hid])]
        rw [hres]
        exact hp
  · intro st dc s q hq
    show q ∈ recordPaths (diskSaveDC (7 + 1) st (some dc) s false).2
    cases hpatch : patchScope (some dc) s with
    | error e =>
      simp only [diskSaveDC, hpatch]
      exact hq
    | ok scope' =>
      simp only [diskSaveDC, hpatch, Bool.false_and, if_false]
      exact mem_recPut_fst st.records q (pathOfScope scope') (.valid dc.empty) hq

/-- Witness for C1: in the populated root, the round's first descendant key
`[0]` (its trial index) is still visible under the round's scope after a
shallow save of the round node; on disk, `c6State`'s record folder `_p`
survives a shallow save. -/
theorem save_preserves_descendant_keys_witness :
    [SAttr.num 0] ∈ keysUnder
      (vanillaSave populatedRootDC roundDC0 roundScope0 false).2 roundScope0 ∧
    ["_p"] ∈ recordPaths (diskSave c6State roundDC0 c7DictScope false).2 := by
  constructor
  · exact save_preserves_descendant_keys.1 populatedRootDC roundDC0 roundScope0
      WF_populatedRootDC ⟨rfl, rfl⟩ [SAttr.num 0] (by decide)
  · exact save_preserves_descendant_keys.2 c6State roundDC0 c7DictScope ["_p"]
      (by decide)

end Neuraxle
